import Mathlib

/-!
Verification development for the zotero-kbase repository.

The batch PDF-to-markdown pipeline (`src/convert_pdf_files.py`) and the
annotation renderer (`src/convert_annotations.py`) are shallowly embedded:

* The filesystem is a finite map from path strings to file contents,
  represented as an association list (`FS`).  Directories are implicit:
  a directory "exists" when some file lives under it, mirroring the fact
  that every directory the scripts create is immediately populated or
  probed only for its files.
* The external document-analysis engine (magic_pdf) and the pypdf page
  probe are opaque deterministic oracles bundled in an `Engine`.
  `Engine.pageCount` returns 0 when the probe fails, exactly as the
  source's `get_pdf_page_count` helper maps exceptions to 0.
* Console progress lines are modelled by the per-request `Outcome` trace;
  the end-of-run printed tally is modelled by `summaryOf`.
* Python `str.replace` is modelled by `pyReplace` (replace every
  non-overlapping occurrence, scanning left to right).
-/

namespace ZoteroKbase

/-- Last path component of a character list: `os.path.basename`.  The fold
resets the accumulator at every separator, so the result is the text after
the final slash. -/
def lastComponent (l : List Char) : List Char :=
  l.foldl (fun acc c => if c = '/' then [] else acc ++ [c]) []

/-- Helper for `splitextStem`: on a reversed character list, drop characters
up to and including the first dot; `none` when there is no dot. -/
def stemAux : List Char → Option (List Char)
  | [] => none
  | c :: rest => if c = '.' then some rest else stemAux rest

/-- Stem part of `os.path.splitext`: everything before the last dot, except
that a name whose only dot is leading (like `.bashrc`) is kept whole. -/
def splitextStem (l : List Char) : List Char :=
  match stemAux l.reverse with
  | some r => if r.isEmpty then l else r.reverse
  | none => l

/-- Join two path segments with a slash: `os.path.join` for the
forward-slash segments the model uses. -/
def pathJoin (a b : String) : String :=
  a ++ "/" ++ b

/-- `p` lies strictly under directory `dir` (some path component follows
`dir`). -/
def isUnder (dir p : String) : Bool :=
  (dir.data ++ ['/']).isPrefixOf p.data

/-- Python `str.replace` on character lists: replace every non-overlapping
occurrence of `pat`, scanning left to right.  The fuel argument is the
length of the remaining text, which bounds the recursion. -/
def replaceAux (pat rep : List Char) : Nat → List Char → List Char
  | 0, l => l
  | _, [] => []
  | fuel + 1, c :: rest =>
    if pat.isPrefixOf (c :: rest) then
      rep ++ replaceAux pat rep fuel ((c :: rest).drop pat.length)
    else
      c :: replaceAux pat rep fuel rest

/-- Python `content.replace(old, new)` lifted to `String`. -/
def pyReplace (s old new : String) : String :=
  ⟨replaceAux old.data new.data s.data.length s.data⟩

/-- Filesystem model: association list from absolute path to file content.
The first entry with a given key is the file's content. -/
abbrev FS := List (String × String)

/-- Content of the file at `p`, when present. -/
def FS.read (fs : FS) (p : String) : Option String :=
  (fs.find? (fun e => e.1 == p)).map (fun e => e.2)

/-- `os.path.exists` for a file path. -/
def FS.existsFile (fs : FS) (p : String) : Bool :=
  (fs.find? (fun e => e.1 == p)).isSome

/-- Write (create or overwrite) the file at `p`. -/
def FS.write (fs : FS) (p c : String) : FS :=
  (p, c) :: fs.filter (fun e => !(e.1 == p))

/-- Remove the file at `p` (no-op when absent). -/
def FS.removeFile (fs : FS) (p : String) : FS :=
  fs.filter (fun e => !(e.1 == p))

/-- `shutil.rmtree dir`: delete every file under `dir`. -/
def FS.rmtree (fs : FS) (dir : String) : FS :=
  fs.filter (fun e => !(isUnder dir e.1))

/-- `shutil.move src dst` for a single file.  In every flow of the source
the move's source exists; a missing source is modelled as a no-op. -/
def FS.mvFile (fs : FS) (src dst : String) : FS :=
  match fs.read src with
  | some c => (fs.removeFile src).write dst c
  | none => fs

/-- `os.listdir dir` restricted to files directly or transitively under
`dir`, giving names relative to `dir`.  The temp images directory the
source lists is flat, so this coincides with `os.listdir` there.  Listing
order is OS-unspecified in Python; the model uses association-list order. -/
def FS.listdir (fs : FS) (dir : String) : List String :=
  fs.filterMap (fun e =>
    if isUnder dir e.1 then some ⟨e.1.data.drop (dir.data.length + 1)⟩ else none)

/-- Configuration constants from `src/config.py` used by the pipeline. -/
def IMAGES_DIR_NAME : String := "images"

/-- Default text encoding; file contents are plain strings in the model so
the encoding is carried only for completeness. -/
def DEFAULT_ENCODING : String := "utf-8"

/-- Image file extensions recognised by `convert_pdf_files.py`
(`IMAGE_EXTENSIONS`, checked with `str.lower().endswith`). -/
def IMAGE_EXTENSIONS : List String := [".png", ".jpg", ".jpeg", ".gif", ".bmp"]

/-- `image_file.lower().endswith(IMAGE_EXTENSIONS)`. -/
def allowedImageExt (name : String) : Bool :=
  IMAGE_EXTENSIONS.any (fun ext => ext.data.isSuffixOf (name.data.map Char.toLower))

/-- Opaque external collaborators of the batch converter:
`pageCount` is `get_pdf_page_count` (pypdf; 0 when the probe raises),
`analyze` is the magic_pdf pipeline applied to the document at a path,
yielding either the raised exception's message or the markdown text
together with the extracted image files (name, bytes).  Both the OCR and
the text pipeline of `convert_single_pdf_to_md` end in the same
markdown-plus-images shape, so one oracle covers both branches. -/
structure Engine where
  pageCount : String → Nat
  analyze : String → Except String (String × List (String × String))

/-- `convert_single_pdf_to_md`: write the engine's image files under
`output_dir/images`, write the markdown as `output_name.md` under
`output_dir`, and return the markdown path.  An engine failure propagates
unchanged and leaves no partial file (the source's sole error condition at
this layer). -/
def convert_single_pdf_to_md (eng : Engine) (pdf_path output_dir : String)
    (output_name : Option String) (fs : FS) : Except String (FS × String) :=
  let oname := output_name.getD ⟨splitextStem (lastComponent pdf_path.data)⟩
  let local_image_dir := pathJoin output_dir IMAGES_DIR_NAME
  match eng.analyze pdf_path with
  | .error e => .error e
  | .ok (md_content, imgs) =>
    let fs1 := imgs.foldl
      (fun acc nd => FS.write acc (pathJoin local_image_dir nd.1) nd.2) fs
    let md_filename := oname ++ ".md"
    let fs2 := FS.write fs1 (pathJoin output_dir md_filename) md_content
    .ok (fs2, pathJoin output_dir md_filename)

/-- Per-request result of the batch loop.  The source distinguishes the
five cases through its console messages and control flow: the two skip
variants print different reasons (`pages > limit` versus `could not
determine page count`) but are appended to the same `skipped_files` list. -/
inductive Outcome where
  | alreadyDone (path : String)
  | skippedTooLarge (pdf_path : String)
  | skippedZeroPages (pdf_path : String)
  | success (path : String)
  | failed (msg : String)
deriving Repr, DecidableEq

/-- Canonical output name `f"{pdf_id}_{filename_without_ext}"` of a
request `(pdf_path, pdf_id)`. -/
def reqOutputName (r : String × Int) : String :=
  toString r.2 ++ "_" ++ ⟨splitextStem (lastComponent r.1.data)⟩

/-- Canonical output path `os.path.join(out_dir, f"{output_name}.md")`. -/
def reqFinalPath (out_dir : String) (r : String × Int) : String :=
  pathJoin out_dir (reqOutputName r ++ ".md")

/-- Temporary working directory for the request at position `i`
(`TEMP_DIR_PREFIX = "temp_"`). -/
def tempDir (out_dir : String) (i : Nat) : String :=
  pathJoin out_dir ("temp_" ++ toString i)

/-- Read-modify-write of the markdown file: replace every occurrence of
the old image reference by the new one (`content.replace` then write). -/
def rewriteRefs (final_md_path old new : String) (fs : FS) : FS :=
  match fs.read final_md_path with
  | some content => fs.write final_md_path (pyReplace content old new)
  | none => fs

/-- One iteration of the image relocation loop: when the listed file has a
recognised image extension, move it into the shared images directory under
the id-prefixed name and rewrite its references in the final markdown
file; otherwise do nothing. -/
def relocateImage (temp_images_dir images_dir image_pref final_md_path : String)
    (fs : FS) (image_file : String) : FS :=
  if allowedImageExt image_file then
    rewriteRefs final_md_path (IMAGES_DIR_NAME ++ "/" ++ image_file)
      (IMAGES_DIR_NAME ++ "/" ++ (image_pref ++ "_" ++ image_file))
      (fs.mvFile (pathJoin temp_images_dir image_file)
        (pathJoin images_dir (image_pref ++ "_" ++ image_file)))
  else fs

/-- Image relocation loop of `convert_multiple_pdfs_to_md`: for every
listed file with a recognised image extension, move it into the shared
images directory under the id-prefixed name and rewrite every occurrence
of the old relative reference inside the final markdown file. -/
def moveAndRenameImages (temp_images_dir images_dir image_pref final_md_path : String)
    (image_files : List String) (fs : FS) : FS :=
  image_files.foldl
    (relocateImage temp_images_dir images_dir image_pref final_md_path) fs

/-- The `try` block of the batch loop: convert into the temp directory,
move the markdown into place, relocate and rewrite images, and — in the
`finally` — delete the temp directory whether or not the engine failed. -/
def doConversion (eng : Engine) (out_dir : String) (i : Nat)
    (pdf_path : String) (pdf_id : Int) (output_name final_md_path : String)
    (fs : FS) : FS × Outcome :=
  match convert_single_pdf_to_md eng pdf_path (tempDir out_dir i) (some output_name) fs with
  | .error e => (fs.rmtree (tempDir out_dir i), .failed e)
  | .ok (fs1, md_file) =>
    ((moveAndRenameImages (pathJoin (tempDir out_dir i) IMAGES_DIR_NAME)
        (pathJoin out_dir IMAGES_DIR_NAME) (toString pdf_id) final_md_path
        ((fs1.mvFile md_file final_md_path).listdir
          (pathJoin (tempDir out_dir i) IMAGES_DIR_NAME))
        (fs1.mvFile md_file final_md_path)).rmtree (tempDir out_dir i),
      .success final_md_path)

/-- Page-count filter of the batch loop (the `pages_max` block): probe the
page count when a limit is set, skipping over-limit and zero-count
documents, and convert otherwise. -/
def pageGate (eng : Engine) (out_dir : String) (pages_max : Option Nat)
    (i : Nat) (r : String × Int) (fs : FS) : FS × Outcome :=
  match pages_max with
  | some m =>
    if eng.pageCount r.1 > m then (fs, .skippedTooLarge r.1)
    else if eng.pageCount r.1 == 0 then (fs, .skippedZeroPages r.1)
    else doConversion eng out_dir i r.1 r.2 (reqOutputName r) (reqFinalPath out_dir r) fs
  | none => doConversion eng out_dir i r.1 r.2 (reqOutputName r) (reqFinalPath out_dir r) fs

/-- Body of the batch loop of `convert_multiple_pdfs_to_md` for one
request `(pdf_path, pdf_id)` at position `i`: honour an existing output
file unless rebuilding, then apply the page filter and convert. -/
def processOne (eng : Engine) (out_dir : String) (pages_max : Option Nat)
    (force_rebuild : Bool) (i : Nat) (r : String × Int) (fs : FS) : FS × Outcome :=
  if !force_rebuild && fs.existsFile (reqFinalPath out_dir r) then
    (fs, .alreadyDone (reqFinalPath out_dir r))
  else
    pageGate eng out_dir pages_max i r fs

/-- The batch loop: process the requests in input order, threading the
filesystem and numbering temp directories by position. -/
def runBatch (eng : Engine) (out_dir : String) (pages_max : Option Nat)
    (force_rebuild : Bool) : Nat → List (String × Int) → FS → FS × List Outcome
  | _, [], fs => (fs, [])
  | i, r :: rest, fs =>
    let step := processOne eng out_dir pages_max force_rebuild i r fs
    let tail := runBatch eng out_dir pages_max force_rebuild (i + 1) rest step.1
    (tail.1, step.2 :: tail.2)

/-- `convert_multiple_pdfs_to_md`: validate the list lengths, apply the
`force_rebuild` deletion of the output tree when the directory exists
(a directory exists in the model when some file lives under it), and run
the batch loop over the zipped requests. -/
def convert_multiple_pdfs_to_md (eng : Engine) (fullpath_list : List String)
    (id_list : List Int) (out_dir : String) (pages_max : Option Nat)
    (force_rebuild : Bool) (fs : FS) : Except String (FS × List Outcome) :=
  if id_list.length ≠ fullpath_list.length then
    .error "Number of IDs must match number of PDF paths"
  else
    let fs0 := if force_rebuild && fs.any (fun e => isUnder out_dir e.1) then
        fs.rmtree out_dir
      else fs
    .ok (runBatch eng out_dir pages_max force_rebuild 0
      (fullpath_list.zip id_list) fs0)

/-- `generated_files`: paths appended on the already-converted and the
success branches, in processing order. -/
def generatedFiles (os : List Outcome) : List String :=
  os.filterMap (fun o => match o with
    | .alreadyDone p => some p
    | .success p => some p
    | _ => none)

/-- `already_converted_files`. -/
def alreadyConvertedFiles (os : List Outcome) : List String :=
  os.filterMap (fun o => match o with
    | .alreadyDone p => some p
    | _ => none)

/-- `skipped_files`: both skip variants append to this single list. -/
def skippedFiles (os : List Outcome) : List String :=
  os.filterMap (fun o => match o with
    | .skippedTooLarge p => some p
    | .skippedZeroPages p => some p
    | _ => none)

/-- Number of requests for which the conversion engine was actually
invoked (the success and failure branches of the `try` block). -/
def conversionsPerformed (os : List Outcome) : Nat :=
  os.countP (fun o => match o with
    | .success _ => true
    | .failed _ => true
    | _ => false)

/-- The end-of-run console tally of `convert_multiple_pdfs_to_md`:
successfully converted (`len(generated) - len(already)`), already
converted, skipped (one combined count), and total output files.
No failed count is printed. -/
structure BatchSummary where
  successfully_converted : Nat
  already_converted : Nat
  skipped : Nat
  total_output : Nat
deriving Repr, DecidableEq

/-- Build the printed summary from the outcome trace. -/
def summaryOf (os : List Outcome) : BatchSummary :=
  { successfully_converted :=
      (generatedFiles os).length - (alreadyConvertedFiles os).length
    already_converted := (alreadyConvertedFiles os).length
    skipped := (skippedFiles os).length
    total_output := (generatedFiles os).length }

/-! Annotation renderer (`src/convert_annotations.py`).  A CSV row of
`zotero_annotations.csv` becomes an `AnnotationRecord`; nullable CSV cells
(page label, highlight text, comment) become `Option String`, `none`
standing for pandas `NaN`. -/

/-- One row of the annotations CSV. -/
structure AnnotationRecord where
  attachment_id : Int
  page_label : Option String
  annotation_text : Option String
  annotation_comment : Option String
  annotation_type_name : String
  annotation_color : String
  paper_title : String
  paper_id : Int
  attachment_path : String
deriving Repr, DecidableEq

/-- Lexicographic (code-point) comparison of character lists: Python's
string `<`, which pandas applies to the page-label strings. -/
def charListLt : List Char → List Char → Bool
  | _, [] => false
  | [], _ :: _ => true
  | a :: as, b :: bs =>
    if a < b then true else if b < a then false else charListLt as bs

/-- Ascending comparison on page labels with missing labels last: the
order produced by `sort_values('page_label', na_position='last')`. -/
def pageLt (a b : Option String) : Bool :=
  match a, b with
  | some x, some y => charListLt x.data y.data
  | some _, none => true
  | none, _ => false

/-- Insert `x` into a sorted list after every strictly smaller element. -/
def insertStable {α : Type} (lt : α → α → Bool) (x : α) : List α → List α
  | [] => [x]
  | y :: ys => if lt y x then y :: insertStable lt x ys else x :: y :: ys

/-- An insertion sort.  `sort_values` with the default `kind='quicksort'`
(numpy introsort) guarantees only the ordering of the keys, not the
relative order of rows whose keys tie; this model therefore has to pick
one admissible output permutation per input, and insertion sort is the
one fixed here so that the renderer below stays executable.  Properties
that depend on which permutation of a tie group is produced (e.g. the
stability this particular algorithm happens to enjoy) are properties of
the model's choice, not of the program, and no claim is proved from
them. -/
def stableSortBy {α : Type} (lt : α → α → Bool) (l : List α) : List α :=
  l.foldr (insertStable lt) []

/-- `annot_sel.sort_values('page_label', na_position='last')`, up to the
unspecified ordering within tie groups noted at `stableSortBy`. -/
def sortRecords (l : List AnnotationRecord) : List AnnotationRecord :=
  stableSortBy (fun r s => pageLt r.page_label s.page_label) l

/-- Python `str.title()` restricted to what the renderer feeds it:
uppercase each letter that follows a non-letter, lowercase the rest. -/
def titleAux : Bool → List Char → List Char
  | _, [] => []
  | prevAlpha, c :: rest =>
    if c.isAlpha then
      (if prevAlpha then c.toLower else c.toUpper) :: titleAux true rest
    else c :: titleAux false rest

/-- `annotation_type.title()`. -/
def pyTitle (s : String) : String := ⟨titleAux false s.data⟩

/-- `f"## Page {page}"` renders a missing label the way an f-string
renders float NaN. -/
def pageLabelStr : Option String → String
  | none => "nan"
  | some p => p

/-- The loop's `page != current_page` comparison.  The outer `Option` is
the `current_page` variable (`none` = the initial Python `None`); a
missing page label is pandas NaN, which compares unequal to everything
including itself. -/
def pandasNe (page : Option String) (current : Option (Option String)) : Bool :=
  match current with
  | none => true
  | some c =>
    match page, c with
    | none, _ => true
    | _, none => true
    | some p, some q => !(p == q)

/-- Markdown pieces appended for the annotation rows, mirroring the
`markdown_content.append` calls of the per-row loop: a page header when
the page changes, the capitalized type with optional color tag, optional
highlight text and comment (both omitted when missing or empty), and a
closing horizontal rule. -/
def annotationPieces : Option (Option String) → List AnnotationRecord → List String
  | _, [] => []
  | current, row :: rest =>
    let newPage := pandasNe row.page_label current
    let headerPieces :=
      if newPage then
        (if current.isSome then ["\n"] else []) ++
        ["## Page " ++ pageLabelStr row.page_label ++ "\n\n"]
      else []
    let colorPieces :=
      if row.annotation_color ≠ "" then [" `" ++ row.annotation_color ++ "`"] else []
    let textPieces :=
      match row.annotation_text with
      | some t => if t ≠ "" then ["**Text:** " ++ t ++ "\n\n"] else []
      | none => []
    let commentPieces :=
      match row.annotation_comment with
      | some c => if c ≠ "" then ["**Comment:** " ++ c ++ "\n\n"] else []
      | none => []
    headerPieces ++ ["### " ++ pyTitle row.annotation_type_name] ++ colorPieces ++
      ["\n\n"] ++ textPieces ++ commentPieces ++ ["---\n\n"] ++
      annotationPieces (if newPage then some row.page_label else current) rest

/-- Document header block: title, attachment id, parent paper id, source
path, horizontal rule. -/
def mdHeaderPieces (attachment_id : Int) (paper_info : AnnotationRecord) : List String :=
  ["# " ++ paper_info.paper_title ++ "\n\n",
   "**Attachment ID:** " ++ toString attachment_id ++ "  \n",
   "**Paper ID:** " ++ toString paper_info.paper_id ++ "  \n",
   "**File Path:** " ++ paper_info.attachment_path ++ "  \n\n",
   "---\n\n"]

/-- `annotations_to_markdown`: filter the records of one attachment,
return `none` (writing nothing) when the selection is empty, otherwise
sort, render and write `{attachment_id}.md` under the output directory.
The CSV itself is passed in as the record list; its `FileNotFoundError`
precondition is outside the embedded fragment. -/
def annotations_to_markdown (annot : List AnnotationRecord) (attachment_id : Int)
    (output_path : String) (fs : FS) : FS × Option String :=
  let annot_sel := annot.filter (fun r => r.attachment_id == attachment_id)
  match annot_sel with
  | [] => (fs, none)
  | paper_info :: _ =>
    let sorted := sortRecords annot_sel
    let pieces := mdHeaderPieces attachment_id paper_info ++ annotationPieces none sorted
    let output_file := pathJoin output_path (toString attachment_id ++ ".md")
    (fs.write output_file (String.join pieces), some output_file)

/-- Per-item result stored in the `results` dict of
`process_all_attachments` (`status: success/failed`). -/
inductive ItemResult where
  | success (file_path : String) (annotation_count : Nat) (paper_title : String)
  | failed (reason : String)
deriving Repr, DecidableEq

/-- Loop body of `process_all_attachments` for one attachment id: an
empty selection is recorded as a failed item with reason
`"No annotations found"`; otherwise the same render-and-write logic as
the single-attachment function runs and a success item is recorded. -/
def processAttachmentItem (annot : List AnnotationRecord) (attachment_id : Int)
    (output_dir : String) (fs : FS) : FS × ItemResult :=
  let annot_sel := annot.filter (fun r => r.attachment_id == attachment_id)
  match annot_sel with
  | [] => (fs, .failed "No annotations found")
  | paper_info :: _ =>
    let sorted := sortRecords annot_sel
    let pieces := mdHeaderPieces attachment_id paper_info ++ annotationPieces none sorted
    let output_file := pathJoin output_dir (toString attachment_id ++ ".md")
    (fs.write output_file (String.join pieces),
     .success output_file annot_sel.length paper_info.paper_title)

/-- `annot['attachment_id'].unique()`: the distinct attachment ids of the
record list (their order is irrelevant here because the caller sorts). -/
def uniqueIds (annot : List AnnotationRecord) : List Int :=
  (annot.map (fun r => r.attachment_id)).dedup

/-- `process_all_attachments`: iterate `sorted(attachment_ids)` and record
one item result per id. -/
def process_all_attachments (annot : List AnnotationRecord) (output_path : String)
    (fs : FS) : FS × List (Int × ItemResult) :=
  let ids := stableSortBy (fun a b => decide (a < b)) (uniqueIds annot)
  ids.foldl (fun acc id =>
    let step := processAttachmentItem annot id output_path acc.1
    (step.1, acc.2 ++ [(id, step.2)])) (fs, [])

/-! Module-level imports of `convert_pdf_files.py` against the names
defined by `config.py` (claim C9).  Python resolves a `from config import
X` statement at module load, before any function body runs; a missing
name raises `ImportError` and aborts the load. -/

/-- Top-level names defined by `src/config.py`. -/
def config_module_names : List String :=
  ["ZOTERO_DATA_DIR", "ZOTERO_DB_PATH", "STORAGE_DIR_NAME", "MINERU_DIR",
   "MAGIC_PDF_CONFIG_FILENAME", "METADATA_CSV_FILENAME",
   "ANNOTATIONS_CSV_FILENAME", "DEFAULT_BATCH_OUTPUT_DIR", "IMAGES_DIR_NAME",
   "DEFAULT_ANNOTATIONS_OUTPUT_DIR", "DEFAULT_ENCODING", "DEFAULT_MAX_PAGES"]

/-- Names `convert_pdf_files.py` requests in its `from config import (...)`
statement (lines 6-14). -/
def convert_pdf_files_imported_names : List String :=
  ["MINERU_CONFIG_DIR", "MAGIC_PDF_CONFIG_FILENAME", "IMAGES_DIR_NAME",
   "METADATA_CSV_FILENAME", "DEFAULT_BATCH_OUTPUT_DIR", "DEFAULT_MAX_PAGES",
   "DEFAULT_ENCODING"]

/-- The import statement succeeds exactly when every requested name is
defined by the configuration module. -/
def convertPdfFilesImportOk : Bool :=
  convert_pdf_files_imported_names.all (fun n => config_module_names.contains n)

/-! Basic lemmas about the filesystem model. -/

/-- A `find?` is unaffected by a `filter` whose predicate holds on every
element the search predicate accepts. -/
theorem find?_filter_eq {α : Type} (l : List α) (f g : α → Bool)
    (h : ∀ a, f a = true → g a = true) :
    (l.filter g).find? f = l.find? f := by
  induction l with
  | nil => rfl
  | cons a l ih =>
    by_cases hf : f a = true
    · have hg := h a hf
      simp [List.filter_cons, hg, List.find?_cons, hf, ih]
    · have hf' : f a = false := by simpa using hf
      by_cases hg : g a = true
      · simp [List.filter_cons, hg, List.find?_cons, hf', ih]
      · have hg' : g a = false := by simpa using hg
        simp [List.filter_cons, hg', List.find?_cons, hf', ih]

/-- File existence as membership of some entry for the path. -/
theorem FS.existsFile_iff (fs : FS) (p : String) :
    fs.existsFile p = true ↔ ∃ c, (p, c) ∈ fs := by
  unfold FS.existsFile
  rw [Option.isSome_iff_exists]
  constructor
  · rintro ⟨e, he⟩
    have hmem := List.mem_of_find?_eq_some he
    have hpred := List.find?_some he
    rcases e with ⟨a, c⟩
    have : a = p := by simpa using hpred
    subst this
    exact ⟨c, hmem⟩
  · rintro ⟨c, hc⟩
    have : ∃ e ∈ fs, (fun e : String × String => e.1 == p) e = true :=
      ⟨(p, c), hc, by simp⟩
    rw [← List.find?_isSome] at this
    exact Option.isSome_iff_exists.mp this

/-- Deleting a directory tree deletes every file under it. -/
theorem FS.existsFile_rmtree_of_isUnder (fs : FS) (dir p : String)
    (h : isUnder dir p = true) : (fs.rmtree dir).existsFile p = false := by
  rw [Bool.eq_false_iff]
  intro hex
  rcases (FS.existsFile_iff _ _).mp hex with ⟨c, hc⟩
  have := List.of_mem_filter hc
  simp [h] at this

/-- Deleting a directory tree leaves every file outside it untouched. -/
theorem FS.read_rmtree_of_not_isUnder (fs : FS) (dir p : String)
    (h : isUnder dir p = false) : (fs.rmtree dir).read p = fs.read p := by
  unfold FS.read FS.rmtree
  rw [find?_filter_eq]
  intro e he
  have : e.1 = p := by simpa using he
  simp [this, h]

/-- Claim C9: `convert_pdf_files.py` requests the name `MINERU_CONFIG_DIR`
from the shared configuration module, but `config.py` defines only
`MINERU_DIR`, so the module-level import statement fails and the batch
conversion stage cannot run at all (the import runs before any request is
processed). -/
theorem C9_module_import_fails :
    convertPdfFilesImportOk = false ∧
    "MINERU_CONFIG_DIR" ∈ convert_pdf_files_imported_names ∧
    "MINERU_CONFIG_DIR" ∉ config_module_names := by decide

/-- Claim C10: with `force_rebuild = true` and an existing output
directory, `convert_multiple_pdfs_to_md` first deletes the whole output
tree: the run proceeds from the wiped state, every file under the output
root (the shared images directory and unrelated markdown files included)
is gone after the deletion step, and files outside the output root are
untouched. -/
theorem C10_force_rebuild_deletes_output_tree (eng : Engine)
    (fullpath_list : List String) (id_list : List Int) (out_dir : String)
    (pages_max : Option Nat) (fs : FS)
    (hlen : id_list.length = fullpath_list.length) :
    convert_multiple_pdfs_to_md eng fullpath_list id_list out_dir pages_max true fs =
      .ok (runBatch eng out_dir pages_max true 0 (fullpath_list.zip id_list)
        (fs.rmtree out_dir))
    ∧ (∀ p, isUnder out_dir p = true → (fs.rmtree out_dir).existsFile p = false)
    ∧ (∀ p, isUnder out_dir p = false → (fs.rmtree out_dir).read p = fs.read p) := by
  refine ⟨?_, fun p hp => FS.existsFile_rmtree_of_isUnder fs out_dir p hp,
    fun p hp => FS.read_rmtree_of_not_isUnder fs out_dir p hp⟩
  unfold convert_multiple_pdfs_to_md
  rw [if_neg (by simp [hlen])]
  by_cases hany : fs.any (fun e => isUnder out_dir e.1) = true
  · simp [hany]
  · have hall : ∀ e ∈ fs, isUnder out_dir e.1 = false := by
      intro e he
      by_contra hne
      exact hany (List.any_eq_true.mpr ⟨e, he, by simpa using hne⟩)
    have : fs.rmtree out_dir = fs := by
      unfold FS.rmtree
      rw [List.filter_eq_self]
      intro e he
      simp [hall e he]
    simp only [Bool.true_and]
    rw [if_neg (by simpa using hany), this]

/-- Claim C6: when a page limit is in force and the output file is not
already present, a document whose (positive) page count equals exactly
`max_pages` proceeds to conversion (and succeeds when the engine does),
while a document whose page count is `max_pages + 1` is skipped as too
large. -/
theorem C6_page_limit_boundary (eng : Engine) (out_dir : String) (m : Nat)
    (i : Nat) (r : String × Int) (fs : FS) :
    (fs.existsFile (reqFinalPath out_dir r) = false →
      eng.pageCount r.1 = m → 0 < m →
      ∀ md imgs, eng.analyze r.1 = .ok (md, imgs) →
      (processOne eng out_dir (some m) false i r fs).2 =
        .success (reqFinalPath out_dir r))
    ∧ (fs.existsFile (reqFinalPath out_dir r) = false →
      eng.pageCount r.1 = m + 1 →
      (processOne eng out_dir (some m) false i r fs).2 = .skippedTooLarge r.1) := by
  constructor
  · intro hex hpc hm md imgs hana
    have hgt : ¬ eng.pageCount r.1 > m := by omega
    have hz : ¬ (eng.pageCount r.1 == 0) = true := by simp; omega
    simp [processOne, pageGate, doConversion, convert_single_pdf_to_md, hex, hgt, hz, hana]
  · intro hex hpc
    have hgt : eng.pageCount r.1 > m := by omega
    simp [processOne, pageGate, hex, hgt]

/-! Concrete fixtures for witnesses and counterexamples. -/

/-- An engine whose documents have 5 pages and convert to a one-line
markdown with a single extracted image. -/
def engSmall : Engine :=
  ⟨fun _ => 5, fun _ => .ok ("hello images/x.png", [("x.png", "DATA")])⟩

/-- An engine whose conversion always raises `boom`. -/
def engBoom : Engine := ⟨fun _ => 5, fun _ => .error "boom"⟩

/-- An engine whose page probe always fails (count 0). -/
def engZeroZero : Engine := ⟨fun _ => 0, fun _ => .ok ("", [])⟩

/-- An engine where `b.pdf` has 101 pages and every other probe fails. -/
def engZeroLarge : Engine :=
  ⟨fun p => if p = "b.pdf" then 101 else 0, fun _ => .ok ("", [])⟩

/-- A sample annotation record attached to attachment 1. -/
def recA : AnnotationRecord :=
  { attachment_id := 1, page_label := some "1", annotation_text := some "highlighted text",
    annotation_comment := none, annotation_type_name := "highlight",
    annotation_color := "#ffd400", paper_title := "Paper A", paper_id := 10,
    attachment_path := "storage/a.pdf" }

/-- Witness for C10 at a concrete state holding one file under the output
root and one outside it. -/
theorem C10_witness :
    convert_multiple_pdfs_to_md engSmall ["a.pdf"] [1] "out" none true
        [("out/old.md", "x"), ("keep/z.md", "y")] =
      .ok (runBatch engSmall "out" none true 0 (["a.pdf"].zip [1])
        (FS.rmtree [("out/old.md", "x"), ("keep/z.md", "y")] "out"))
    ∧ (∀ p, isUnder "out" p = true →
        (FS.rmtree [("out/old.md", "x"), ("keep/z.md", "y")] "out").existsFile p = false)
    ∧ (∀ p, isUnder "out" p = false →
        (FS.rmtree [("out/old.md", "x"), ("keep/z.md", "y")] "out").read p =
          FS.read [("out/old.md", "x"), ("keep/z.md", "y")] p) :=
  C10_force_rebuild_deletes_output_tree engSmall ["a.pdf"] [1] "out" none
    [("out/old.md", "x"), ("keep/z.md", "y")] rfl

/-- Witness for C6: with `engSmall` (5-page documents), a limit of 5 pages
converts `a.pdf` while a limit of 4 pages skips it as too large. -/
theorem C6_witness :
    (processOne engSmall "out" (some 5) false 0 ("a.pdf", 5) []).2 =
      .success (reqFinalPath "out" ("a.pdf", 5))
    ∧ (processOne engSmall "out" (some 4) false 0 ("a.pdf", 5) []).2 =
      .skippedTooLarge "a.pdf" :=
  ⟨(C6_page_limit_boundary engSmall "out" 5 0 ("a.pdf", 5) []).1 rfl rfl (by decide)
      "hello images/x.png" [("x.png", "DATA")] rfl,
    (C6_page_limit_boundary engSmall "out" 4 0 ("a.pdf", 5) []).2 rfl rfl⟩

/-- The combined skipped tally splits as the number of too-large skips
plus the number of undetermined skips. -/
theorem skippedFiles_length_split (os : List Outcome) :
    (skippedFiles os).length =
      os.countP (fun o => match o with | .skippedTooLarge _ => true | _ => false) +
      os.countP (fun o => match o with | .skippedZeroPages _ => true | _ => false) := by
  induction os with
  | nil => rfl
  | cons o os ih =>
    cases o <;> simp [skippedFiles, List.countP_cons, List.filterMap_cons] at ih ⊢ <;> omega

/-- Claim C3 (amended): with a page limit set, a failed or zero-page probe
yields the skipped-undetermined outcome and a page count above the limit
yields the skipped-too-large outcome — distinct per-item outcomes, and in
both cases the request is not converted (the filesystem is untouched).
The final summary, however, reports only one combined skipped count, the
sum of the two categories, rather than reporting them separately. -/
theorem C3_skip_categories (eng : Engine) (out_dir : String) (m : Nat) (i : Nat)
    (r : String × Int) (fs : FS) :
    (fs.existsFile (reqFinalPath out_dir r) = false →
      eng.pageCount r.1 = 0 →
      processOne eng out_dir (some m) false i r fs = (fs, .skippedZeroPages r.1))
    ∧ (fs.existsFile (reqFinalPath out_dir r) = false →
      eng.pageCount r.1 > m →
      processOne eng out_dir (some m) false i r fs = (fs, .skippedTooLarge r.1))
    ∧ (∀ os : List Outcome, (summaryOf os).skipped =
        os.countP (fun o => match o with | .skippedTooLarge _ => true | _ => false) +
        os.countP (fun o => match o with | .skippedZeroPages _ => true | _ => false)) := by
  refine ⟨?_, ?_, fun os => skippedFiles_length_split os⟩
  · intro hex hz
    have hgt : ¬ eng.pageCount r.1 > m := by omega
    simp [processOne, pageGate, hex, hz, hgt]
  · intro hex hgt
    simp [processOne, pageGate, hex, hgt]

/-- Witness for C3 at concrete inputs: a failing probe gives the
undetermined outcome, a 101-page document against a 100-page limit gives
the too-large outcome. -/
theorem C3_witness :
    processOne engZeroZero "out" (some 100) false 0 ("a.pdf", 1) [] =
      ([], .skippedZeroPages "a.pdf")
    ∧ processOne engZeroLarge "out" (some 100) false 1 ("b.pdf", 2) [] =
      ([], .skippedTooLarge "b.pdf")
    ∧ (summaryOf [.skippedZeroPages "a.pdf", .skippedTooLarge "b.pdf"]).skipped = 2 :=
  ⟨(C3_skip_categories engZeroZero "out" 100 0 ("a.pdf", 1) []).1 rfl rfl,
    (C3_skip_categories engZeroLarge "out" 100 1 ("b.pdf", 2) []).2.1 rfl (by decide),
    by rw [(C3_skip_categories engZeroLarge "out" 100 1 ("b.pdf", 2) []).2.2]; rfl⟩

/-- Counterexample for C3 as stated: two batches over the same paths whose
skip categories differ — both probes failing versus one failing and one
too large — produce identical final summaries and identical recorded
lists, so the two categories are not reported separately at the end of
the run. -/
theorem C3_counterexample :
    convert_multiple_pdfs_to_md engZeroZero ["a.pdf", "b.pdf"] [1, 2] "out"
        (some 100) false [] =
      .ok ([], [.skippedZeroPages "a.pdf", .skippedZeroPages "b.pdf"])
    ∧ convert_multiple_pdfs_to_md engZeroLarge ["a.pdf", "b.pdf"] [1, 2] "out"
        (some 100) false [] =
      .ok ([], [.skippedZeroPages "a.pdf", .skippedTooLarge "b.pdf"])
    ∧ summaryOf [.skippedZeroPages "a.pdf", .skippedZeroPages "b.pdf"] =
        summaryOf [.skippedZeroPages "a.pdf", .skippedTooLarge "b.pdf"]
    ∧ skippedFiles [.skippedZeroPages "a.pdf", .skippedZeroPages "b.pdf"] =
        skippedFiles [.skippedZeroPages "a.pdf", .skippedTooLarge "b.pdf"] :=
  ⟨rfl, rfl, rfl, rfl⟩

/-- Claim C8 (amended): for an attachment id with an empty selection, the
single-attachment entry point writes nothing and returns `None` — a
no-op, not an error; the batch variant's per-item handler instead records
the empty selection as a failed item with reason `No annotations found`.
Every id the batch actually iterates is drawn from the record list
itself, so each iterated id has at least one matching record. -/
theorem C8_empty_selection (annot : List AnnotationRecord) (attachment_id : Int)
    (out_p : String) (fs : FS)
    (h : annot.filter (fun r => r.attachment_id == attachment_id) = []) :
    annotations_to_markdown annot attachment_id out_p fs = (fs, none)
    ∧ processAttachmentItem annot attachment_id out_p fs =
        (fs, .failed "No annotations found")
    ∧ (∀ id ∈ uniqueIds annot,
        annot.filter (fun r => r.attachment_id == id) ≠ []) := by
  refine ⟨?_, ?_, ?_⟩
  · unfold annotations_to_markdown
    rw [h]
  · unfold processAttachmentItem
    rw [h]
  · intro id hid
    have : id ∈ annot.map (fun r => r.attachment_id) := List.mem_dedup.mp hid
    rcases List.mem_map.mp this with ⟨r, hr, hid'⟩
    have : r ∈ annot.filter (fun s => s.attachment_id == id) :=
      List.mem_filter.mpr ⟨hr, by simp [hid']⟩
    exact List.ne_nil_of_mem this

/-- Witness for C8: attachment 2 has no records in `[recA]`. -/
theorem C8_witness :
    annotations_to_markdown [recA] 2 "annotations" [] = ([], none)
    ∧ processAttachmentItem [recA] 2 "annotations" [] =
        ([], .failed "No annotations found")
    ∧ (∀ id ∈ uniqueIds [recA],
        List.filter (fun r => r.attachment_id == id) [recA] ≠ []) :=
  C8_empty_selection [recA] 2 "annotations" [] rfl

/-- Counterexample for C8 as stated: the batch variant's handling of an
attachment id with no matching records yields the failure outcome
`status: failed, reason: "No annotations found"`, not a no-op. -/
theorem C8_counterexample :
    processAttachmentItem [recA] 2 "annotations" [] =
      ([], ItemResult.failed "No annotations found") := rfl

/-! Path-shape lemmas: canonical output names contain no separator, so
they can never alias the images subdirectory or a temp directory. -/

/-- Data of a joined path. -/
theorem data_pathJoin (a b : String) :
    (pathJoin a b).data = a.data ++ '/' :: b.data := by
  simp [pathJoin, String.data_append]

/-- A joined path lies under its first segment. -/
theorem isUnder_pathJoin (d b : String) : isUnder d (pathJoin d b) = true := by
  unfold isUnder
  rw [data_pathJoin, List.isPrefixOf_iff_prefix]
  exact ⟨b.data, by simp⟩

/-- Lying under a joined directory implies lying under its first segment. -/
theorem isUnder_of_isUnder_pathJoin (d x p : String)
    (h : isUnder (pathJoin d x) p = true) : isUnder d p = true := by
  unfold isUnder at h ⊢
  rw [List.isPrefixOf_iff_prefix] at h ⊢
  refine List.IsPrefix.trans ?_ h
  rw [data_pathJoin]
  exact ⟨x.data ++ ['/'], by simp⟩

/-- A slash-free name joined to a directory never lies under any deeper
subdirectory of that directory. -/
theorem isUnder_pathJoin_plain_false (d x b : String) (hb : '/' ∉ b.data) :
    isUnder (pathJoin d x) (pathJoin d b) = false := by
  rw [Bool.eq_false_iff]
  intro h
  unfold isUnder at h
  rw [List.isPrefixOf_iff_prefix, data_pathJoin, data_pathJoin] at h
  rcases h with ⟨t, ht⟩
  rw [List.append_assoc, List.cons_append, List.append_assoc] at ht
  have h1 := List.append_cancel_left ht
  rw [List.cons_append, List.cons.injEq] at h1
  exact hb (by rw [← h1.2]; simp)

/-- Joining the same directory with two names is injective in the name. -/
theorem pathJoin_inj (d b₁ b₂ : String) (h : pathJoin d b₁ = pathJoin d b₂) :
    b₁ = b₂ := by
  have hd : (pathJoin d b₁).data = (pathJoin d b₂).data := by rw [h]
  rw [data_pathJoin, data_pathJoin] at hd
  have h1 := List.append_cancel_left hd
  rw [List.cons.injEq] at h1
  cases b₁
  cases b₂
  exact congrArg String.mk h1.2

/-- A slash-free name joined to a directory differs from every path in a
deeper subdirectory of that directory. -/
theorem pathJoin_plain_ne_deep (d x y b : String) (hb : '/' ∉ b.data) :
    pathJoin d b ≠ pathJoin (pathJoin d x) y := by
  intro h
  have hd := congrArg String.data h
  rw [data_pathJoin, data_pathJoin, data_pathJoin] at hd
  rw [List.append_assoc, List.cons_append] at hd
  have h1 := List.append_cancel_left hd
  rw [List.cons.injEq] at h1
  exact hb (by rw [h1.2]; simp)

/-- Appending a common suffix to strings is injective. -/
theorem string_append_right_cancel (a b t : String) (h : a ++ t = b ++ t) :
    a = b := by
  have hd := congrArg String.data h
  rw [String.data_append, String.data_append] at hd
  have h1 := List.append_cancel_right hd
  cases a
  cases b
  exact congrArg String.mk h1

/-- `os.path.basename` leaves no separator in its result. -/
theorem lastComponent_no_slash (l : List Char) : '/' ∉ lastComponent l := by
  suffices h : ∀ acc : List Char, '/' ∉ acc → '/' ∉ l.foldl
      (fun acc c => if c = '/' then [] else acc ++ [c]) acc by
    exact h [] (by simp)
  induction l with
  | nil => intro acc hacc; simpa using hacc
  | cons c cs ih =>
    intro acc hacc
    rw [List.foldl_cons]
    by_cases hc : c = '/'
    · rw [if_pos hc]
      exact ih [] (by simp)
    · rw [if_neg hc]
      refine ih (acc ++ [c]) ?_
      intro hmem
      rcases List.mem_append.mp hmem with h | h
      · exact hacc h
      · exact hc (List.mem_singleton.mp h).symm

/-- Characters of the extension-stripped stem come from the input. -/
theorem stemAux_subset (l r : List Char) (h : stemAux l = some r) :
    ∀ c ∈ r, c ∈ l := by
  induction l with
  | nil => simp [stemAux] at h
  | cons d ds ih =>
    by_cases hd : d = '.'
    · rw [stemAux, if_pos hd] at h
      cases h
      intro c hc
      exact List.mem_cons_of_mem _ hc
    · rw [stemAux, if_neg hd] at h
      intro c hc
      exact List.mem_cons_of_mem _ (ih h c hc)

/-- Characters of `splitextStem` come from the input. -/
theorem splitextStem_subset (l : List Char) : ∀ c ∈ splitextStem l, c ∈ l := by
  unfold splitextStem
  cases h : stemAux l.reverse with
  | none => intro c hc; exact hc
  | some r =>
    by_cases hr : r.isEmpty
    · simp only [hr, if_true]
      intro c hc; exact hc
    · simp only [hr, if_false]
      intro c hc
      have := stemAux_subset l.reverse r h c (List.mem_reverse.mp hc)
      exact List.mem_reverse.mp this

/-- Every digit character is a hex digit or the overflow star. -/
theorem digitChar_mem_set (n : Nat) : Nat.digitChar n ∈ "0123456789abcdef*".data := by
  match n with
  | 0 | 1 | 2 | 3 | 4 | 5 | 6 | 7 | 8 | 9 | 10 | 11 | 12 | 13 | 14 | 15 => decide
  | n + 16 =>
    unfold Nat.digitChar
    repeat rw [if_neg (by omega)]
    decide

/-- Characters produced by `Nat.toDigitsCore` are digits or come from the
accumulator. -/
theorem toDigitsCore_chars (b : Nat) (f : Nat) :
    ∀ (n : Nat) (ds : List Char), ∀ c ∈ Nat.toDigitsCore b f n ds,
      c ∈ "0123456789abcdef*".data ∨ c ∈ ds := by
  induction f with
  | zero => intro n ds c hc; exact Or.inr hc
  | succ f ih =>
    intro n ds c hc
    rw [Nat.toDigitsCore] at hc
    by_cases hz : n / b = 0
    · rw [if_pos hz] at hc
      rcases List.mem_cons.mp hc with rfl | h
      · exact Or.inl (digitChar_mem_set _)
      · exact Or.inr h
    · rw [if_neg hz] at hc
      rcases ih (n / b) (Nat.digitChar (n % b) :: ds) c hc with h | h
      · exact Or.inl h
      · rcases List.mem_cons.mp h with rfl | h
        · exact Or.inl (digitChar_mem_set _)
        · exact Or.inr h

/-- Characters of a natural number's decimal representation. -/
theorem natRepr_chars (n : Nat) : ∀ c ∈ (Nat.repr n).data,
    c ∈ "0123456789abcdef*".data := by
  intro c hc
  have hdata : (Nat.repr n).data = Nat.toDigits 10 n := rfl
  rw [hdata] at hc
  rcases toDigitsCore_chars 10 (n + 1) n [] c hc with h | h
  · exact h
  · simp at h

/-- The digit set together with the minus sign. -/
theorem hex_subset_sign (c : Char) (h : c ∈ "0123456789abcdef*".data) :
    c ∈ "-0123456789abcdef*".data := by
  have hd : "-0123456789abcdef*".data = '-' :: "0123456789abcdef*".data := by decide
  rw [hd]
  exact List.mem_cons_of_mem _ h

/-- Characters of an integer's string representation: a sign or a digit
character, never a path separator or underscore. -/
theorem intToString_chars (i : Int) : ∀ c ∈ (toString i).data,
    c ∈ "-0123456789abcdef*".data := by
  intro c hc
  cases i with
  | ofNat n =>
    have hdata : (toString (Int.ofNat n)).data = (Nat.repr n).data := rfl
    rw [hdata] at hc
    exact hex_subset_sign c (natRepr_chars n c hc)
  | negSucc n =>
    have hdata : (toString (Int.negSucc n)).data = ("-" ++ Nat.repr (n + 1)).data := rfl
    rw [hdata, String.data_append] at hc
    rcases List.mem_append.mp hc with h | h
    · have : c = '-' := by simpa using h
      rw [this]
      decide
    · exact hex_subset_sign c (natRepr_chars (n + 1) c h)

/-- The canonical output file name of a request contains no separator. -/
theorem reqOutputName_no_slash (r : String × Int) :
    '/' ∉ (reqOutputName r ++ ".md").data := by
  intro h
  rw [String.data_append] at h
  rcases List.mem_append.mp h with h | h
  · unfold reqOutputName at h
    rw [String.data_append, String.data_append] at h
    rcases List.mem_append.mp h with h | h
    · rcases List.mem_append.mp h with h | h
      · have := intToString_chars r.2 '/' h
        simp at this
      · simp at h
    · exact absurd (splitextStem_subset _ '/' h) (lastComponent_no_slash r.1.data)
  · simp at h

/-! Filesystem operation lemmas. -/

/-- Reading a freshly written file. -/
theorem FS.read_write_self (fs : FS) (p c : String) :
    (fs.write p c).read p = some c := by
  unfold FS.write FS.read
  rw [List.find?_cons_of_pos _ (by simp)]
  rfl

/-- Writing elsewhere does not change a read. -/
theorem FS.read_write_ne (fs : FS) (p q c : String) (h : p ≠ q) :
    (fs.write q c).read p = fs.read p := by
  unfold FS.write FS.read
  rw [List.find?_cons_of_neg _ (by simp [Ne.symm h])]
  rw [find?_filter_eq]
  intro e he
  have : e.1 = p := by simpa using he
  simp [this, h]

/-- Existence after a write. -/
theorem FS.existsFile_write (fs : FS) (p q c : String) :
    (fs.write q c).existsFile p = (p == q || fs.existsFile p) := by
  by_cases h : p = q
  · subst h
    unfold FS.write FS.existsFile
    rw [List.find?_cons_of_pos _ (by simp)]
    simp
  · unfold FS.write FS.existsFile
    rw [List.find?_cons_of_neg _ (by simp [Ne.symm h])]
    rw [find?_filter_eq]
    · simp [h]
    · intro e he
      have : e.1 = p := by simpa using he
      simp [this, h]

/-- Existence after a remove (different path). -/
theorem FS.existsFile_removeFile_ne (fs : FS) (p q : String) (h : p ≠ q) :
    (fs.removeFile q).existsFile p = fs.existsFile p := by
  unfold FS.removeFile FS.existsFile
  rw [find?_filter_eq]
  intro e he
  have : e.1 = p := by simpa using he
  simp [this, h]

/-- A file existing after a remove existed before. -/
theorem FS.existsFile_removeFile_sub (fs : FS) (p q : String)
    (h : (fs.removeFile q).existsFile p = true) : fs.existsFile p = true := by
  rcases (FS.existsFile_iff _ _).mp h with ⟨c, hc⟩
  exact (FS.existsFile_iff _ _).mpr ⟨c, List.mem_of_mem_filter hc⟩

/-- A file existing after a move is the destination or existed before. -/
theorem FS.existsFile_mvFile_adds (fs : FS) (s d p : String)
    (h : (fs.mvFile s d).existsFile p = true) :
    p = d ∨ fs.existsFile p = true := by
  unfold FS.mvFile at h
  cases hr : fs.read s with
  | none => rw [hr] at h; exact Or.inr h
  | some c =>
    rw [hr] at h
    rw [FS.existsFile_write] at h
    rcases Bool.or_eq_true_iff.mp h with h | h
    · exact Or.inl (by simpa using h)
    · exact Or.inr (FS.existsFile_removeFile_sub _ _ _ h)

/-- A move preserves every file other than its source. -/
theorem FS.existsFile_mvFile_preserve (fs : FS) (s d p : String) (hps : p ≠ s)
    (h : fs.existsFile p = true) : (fs.mvFile s d).existsFile p = true := by
  unfold FS.mvFile
  cases hr : fs.read s with
  | none => exact h
  | some c =>
    rw [FS.existsFile_write]
    by_cases hpd : p = d
    · simp [hpd]
    · rw [FS.existsFile_removeFile_ne _ _ _ hps, h]
      simp

/-- Deleting a tree preserves existence outside the tree. -/
theorem FS.existsFile_rmtree_preserve (fs : FS) (dir p : String)
    (h : isUnder dir p = false) :
    (fs.rmtree dir).existsFile p = fs.existsFile p := by
  unfold FS.rmtree FS.existsFile
  rw [find?_filter_eq]
  intro e he
  have : e.1 = p := by simpa using he
  simp [this, h]

/-- A file existing after a tree deletion existed before and lies outside
the tree. -/
theorem FS.existsFile_rmtree_sub (fs : FS) (dir p : String)
    (h : (fs.rmtree dir).existsFile p = true) :
    fs.existsFile p = true ∧ isUnder dir p = false := by
  rcases (FS.existsFile_iff _ _).mp h with ⟨c, hc⟩
  refine ⟨(FS.existsFile_iff _ _).mpr ⟨c, List.mem_of_mem_filter hc⟩, ?_⟩
  have := List.of_mem_filter hc
  simpa using this

/-- Reading after a tree deletion outside the tree. -/
theorem FS.read_rmtree_preserve (fs : FS) (dir p : String)
    (h : isUnder dir p = false) : (fs.rmtree dir).read p = fs.read p :=
  FS.read_rmtree_of_not_isUnder fs dir p h

/-- A file existing after the image-write fold of the converter either
existed before or is one of the written image paths. -/
theorem existsFile_foldl_write_adds (lid : String)
    (imgs : List (String × String)) (fs : FS) (p : String)
    (h : (imgs.foldl (fun acc nd => FS.write acc (pathJoin lid nd.1) nd.2) fs).existsFile
      p = true) :
    fs.existsFile p = true ∨ ∃ nd ∈ imgs, p = pathJoin lid nd.1 := by
  induction imgs generalizing fs with
  | nil => exact Or.inl h
  | cons nd imgs ih =>
    rw [List.foldl_cons] at h
    rcases ih _ h with h | ⟨nd', hnd', hp⟩
    · rw [FS.existsFile_write] at h
      rcases Bool.or_eq_true_iff.mp h with h | h
      · exact Or.inr ⟨nd, List.mem_cons_self _ _, by simpa using h⟩
      · exact Or.inl h
    · exact Or.inr ⟨nd', List.mem_cons_of_mem _ hnd', hp⟩

/-- The image-write fold preserves existing files. -/
theorem existsFile_foldl_write_preserve (lid : String)
    (imgs : List (String × String)) (fs : FS) (p : String)
    (h : fs.existsFile p = true) :
    (imgs.foldl (fun acc nd => FS.write acc (pathJoin lid nd.1) nd.2) fs).existsFile
      p = true := by
  induction imgs generalizing fs with
  | nil => exact h
  | cons nd imgs ih =>
    rw [List.foldl_cons]
    refine ih _ ?_
    rw [FS.existsFile_write, h]
    simp

/-! Structural lemmas about the conversion pipeline. -/

/-- The canonical output path lies under the output root. -/
theorem isUnder_reqFinalPath (out_dir : String) (r : String × Int) :
    isUnder out_dir (reqFinalPath out_dir r) = true :=
  isUnder_pathJoin out_dir (reqOutputName r ++ ".md")

/-- The canonical output path never lies under a temp directory. -/
theorem reqFinalPath_not_under_temp (out_dir : String) (i : Nat) (r : String × Int) :
    isUnder (tempDir out_dir i) (reqFinalPath out_dir r) = false :=
  isUnder_pathJoin_plain_false out_dir ("temp_" ++ toString i)
    (reqOutputName r ++ ".md") (reqOutputName_no_slash r)

/-- The canonical output path never equals a path inside the images
subdirectory (or any other subdirectory) of the output root. -/
theorem reqFinalPath_ne_deep (out_dir x y : String) (r : String × Int) :
    reqFinalPath out_dir r ≠ pathJoin (pathJoin out_dir x) y :=
  pathJoin_plain_ne_deep out_dir x y (reqOutputName r ++ ".md")
    (reqOutputName_no_slash r)

/-- Canonical output paths of requests with distinct output names differ. -/
theorem reqFinalPath_inj (out_dir : String) (r₁ r₂ : String × Int)
    (h : reqFinalPath out_dir r₁ = reqFinalPath out_dir r₂) :
    reqOutputName r₁ = reqOutputName r₂ :=
  string_append_right_cancel _ _ ".md" (pathJoin_inj _ _ _ h)

/-- Unfolding of the single-file converter on engine success. -/
theorem convert_single_spec (eng : Engine) (pdf_path output_dir oname : String)
    (fs : FS) (md : String) (imgs : List (String × String))
    (hana : eng.analyze pdf_path = .ok (md, imgs)) :
    convert_single_pdf_to_md eng pdf_path output_dir (some oname) fs =
      .ok ((imgs.foldl (fun acc nd =>
          FS.write acc (pathJoin (pathJoin output_dir IMAGES_DIR_NAME) nd.1) nd.2)
          fs).write (pathJoin output_dir (oname ++ ".md")) md,
        pathJoin output_dir (oname ++ ".md")) := by
  unfold convert_single_pdf_to_md
  rw [hana]
  rfl

/-- The reference rewrite touches only the markdown file: existence of any
file is preserved, and any file present afterwards was present before or
is the markdown file itself. -/
theorem rewriteRefs_existsFile (fmp o n : String) (fs : FS) (p : String) :
    ((rewriteRefs fmp o n fs).existsFile p = true →
      fs.existsFile p = true ∨ p = fmp)
    ∧ (fs.existsFile p = true → (rewriteRefs fmp o n fs).existsFile p = true) := by
  unfold rewriteRefs
  cases hread : fs.read fmp with
  | some content =>
    constructor
    · intro h
      rw [FS.existsFile_write] at h
      rcases Bool.or_eq_true_iff.mp h with h | h
      · exact Or.inr (by simpa using h)
      · exact Or.inl h
    · intro h
      rw [FS.existsFile_write, h]
      simp
  | none => exact ⟨fun h => Or.inl h, fun h => h⟩

/-- Files added by one relocation iteration: the rewritten markdown file
or a prefixed image of recognised extension in the shared directory. -/
theorem relocateImage_adds (tid imgd pref fmp : String) (fs : FS)
    (nm p : String) (h : (relocateImage tid imgd pref fmp fs nm).existsFile p = true) :
    fs.existsFile p = true ∨ p = fmp ∨
      ∃ nm', allowedImageExt nm' = true ∧ p = pathJoin imgd (pref ++ "_" ++ nm') := by
  unfold relocateImage at h
  by_cases hext : allowedImageExt nm = true
  · rw [if_pos hext] at h
    rcases (rewriteRefs_existsFile _ _ _ _ _).1 h with h | h
    · rcases FS.existsFile_mvFile_adds _ _ _ _ h with h | h
      · exact Or.inr (Or.inr ⟨nm, hext, h⟩)
      · exact Or.inl h
    · exact Or.inr (Or.inl h)
  · rw [if_neg hext] at h
    exact Or.inl h

/-- One relocation iteration preserves every file outside the temp images
directory. -/
theorem relocateImage_preserve (tid imgd pref fmp : String) (fs : FS)
    (nm p : String) (hp : isUnder tid p = false) (h : fs.existsFile p = true) :
    (relocateImage tid imgd pref fmp fs nm).existsFile p = true := by
  unfold relocateImage
  by_cases hext : allowedImageExt nm = true
  · rw [if_pos hext]
    have hpsrc : p ≠ pathJoin tid nm := by
      intro hps
      rw [hps, isUnder_pathJoin] at hp
      exact absurd hp (by simp)
    exact (rewriteRefs_existsFile _ _ _ _ _).2
      (FS.existsFile_mvFile_preserve _ _ _ _ hpsrc h)
  · rw [if_neg hext]
    exact h

/-- Files present after the image-relocation loop: previously present, the
rewritten markdown file, or a prefixed image in the shared directory. -/
theorem MAR_adds (tid imgd pref fmp : String) (files : List String) (fs : FS)
    (p : String)
    (h : (moveAndRenameImages tid imgd pref fmp files fs).existsFile p = true) :
    fs.existsFile p = true ∨ p = fmp ∨
      ∃ nm, allowedImageExt nm = true ∧ p = pathJoin imgd (pref ++ "_" ++ nm) := by
  induction files generalizing fs with
  | nil => exact Or.inl h
  | cons nm files ih =>
    rw [moveAndRenameImages, List.foldl_cons] at h
    rcases ih _ h with h' | h' | h'
    · exact relocateImage_adds _ _ _ _ _ _ _ h'
    · exact Or.inr (Or.inl h')
    · exact Or.inr (Or.inr h')

/-- The image-relocation loop preserves every file outside the temp images
directory. -/
theorem MAR_preserve (tid imgd pref fmp : String) (files : List String) (fs : FS)
    (p : String) (hp : isUnder tid p = false) (h : fs.existsFile p = true) :
    (moveAndRenameImages tid imgd pref fmp files fs).existsFile p = true := by
  induction files generalizing fs with
  | nil => exact h
  | cons nm files ih =>
    rw [moveAndRenameImages, List.foldl_cons]
    exact ih _ (relocateImage_preserve _ _ _ _ _ _ _ hp h)

/-- Outcome and final-markdown existence for a successful conversion, and
the classification of every file the conversion step can add. -/
theorem doConversion_ok (eng : Engine) (out_dir : String) (i : Nat)
    (pp : String) (pid : Int) (oname fmp : String) (fs : FS) (md : String)
    (imgs : List (String × String)) (hana : eng.analyze pp = .ok (md, imgs))
    (hfmp : isUnder (tempDir out_dir i) fmp = false) :
    (doConversion eng out_dir i pp pid oname fmp fs).2 = .success fmp
    ∧ ((doConversion eng out_dir i pp pid oname fmp fs).1).existsFile fmp = true := by
  unfold doConversion
  rw [convert_single_spec eng pp (tempDir out_dir i) oname fs md imgs hana]
  refine ⟨rfl, ?_⟩
  have hfmp_img : isUnder (pathJoin (tempDir out_dir i) IMAGES_DIR_NAME) fmp = false := by
    rw [Bool.eq_false_iff]
    intro hc
    have h4 := isUnder_of_isUnder_pathJoin _ _ _ hc
    exact absurd (hfmp.symm.trans h4) (by simp)
  have h2 : ((imgs.foldl (fun acc nd =>
      FS.write acc (pathJoin (pathJoin (tempDir out_dir i) IMAGES_DIR_NAME) nd.1) nd.2)
      fs).write (pathJoin (tempDir out_dir i) (oname ++ ".md")) md).read
      (pathJoin (tempDir out_dir i) (oname ++ ".md")) = some md :=
    FS.read_write_self _ _ _
  rw [FS.existsFile_rmtree_preserve _ _ _ hfmp]
  refine MAR_preserve _ _ _ _ _ _ _ hfmp_img ?_
  unfold FS.mvFile
  rw [h2, FS.existsFile_write]
  simp

/-- Classification of every file present after the conversion step. -/
theorem doConversion_adds (eng : Engine) (out_dir : String) (i : Nat)
    (pp : String) (pid : Int) (oname fmp : String) (fs : FS) (p : String)
    (h : ((doConversion eng out_dir i pp pid oname fmp fs).1).existsFile p = true) :
    fs.existsFile p = true ∨ p = fmp ∨
      ∃ nm, allowedImageExt nm = true ∧
        p = pathJoin (pathJoin out_dir IMAGES_DIR_NAME) (toString pid ++ "_" ++ nm) := by
  unfold doConversion at h
  cases hana : eng.analyze pp with
  | error e =>
    rw [convert_single_pdf_to_md, hana] at h
    simp only at h
    exact Or.inl (FS.existsFile_rmtree_sub _ _ _ h).1
  | ok v =>
    rcases v with ⟨md, imgs⟩
    rw [convert_single_spec eng pp (tempDir out_dir i) oname fs md imgs hana] at h
    simp only at h
    rcases FS.existsFile_rmtree_sub _ _ _ h with ⟨h3, hnt⟩
    rcases MAR_adds _ _ _ _ _ _ _ h3 with h2 | h2 | h2
    · rcases FS.existsFile_mvFile_adds _ _ _ _ h2 with h1 | h1
      · exact Or.inr (Or.inl h1)
      · rw [FS.existsFile_write] at h1
        rcases Bool.or_eq_true_iff.mp h1 with h0 | h0
        · have hp : p = pathJoin (tempDir out_dir i) (oname ++ ".md") := by simpa using h0
          rw [hp, isUnder_pathJoin] at hnt
          exact absurd hnt (by simp)
        · rcases existsFile_foldl_write_adds _ _ _ _ h0 with h | ⟨nd, _, hp⟩
          · exact Or.inl h
          · rw [hp] at hnt
            have h4 : isUnder (tempDir out_dir i)
                (pathJoin (pathJoin (tempDir out_dir i) IMAGES_DIR_NAME) nd.1) = true :=
              isUnder_of_isUnder_pathJoin (tempDir out_dir i) IMAGES_DIR_NAME
                (pathJoin (pathJoin (tempDir out_dir i) IMAGES_DIR_NAME) nd.1)
                (isUnder_pathJoin (pathJoin (tempDir out_dir i) IMAGES_DIR_NAME) nd.1)
            exact absurd (hnt.symm.trans h4) (by simp)
    · exact Or.inr (Or.inl h2)
    · exact Or.inr (Or.inr h2)

/-- Outcome dispatch of the loop body. -/
theorem processOne_shape (eng : Engine) (out_dir : String) (pm : Option Nat)
    (force : Bool) (i : Nat) (r : String × Int) (fs : FS) :
    processOne eng out_dir pm force i r fs = (fs, .alreadyDone (reqFinalPath out_dir r))
    ∨ processOne eng out_dir pm force i r fs = (fs, .skippedTooLarge r.1)
    ∨ processOne eng out_dir pm force i r fs = (fs, .skippedZeroPages r.1)
    ∨ processOne eng out_dir pm force i r fs =
        doConversion eng out_dir i r.1 r.2 (reqOutputName r) (reqFinalPath out_dir r) fs := by
  unfold processOne
  by_cases hex : (!force && fs.existsFile (reqFinalPath out_dir r)) = true
  · rw [if_pos hex]
    exact Or.inl rfl
  · rw [if_neg hex]
    cases pm with
    | none => exact Or.inr (Or.inr (Or.inr rfl))
    | some m =>
      simp only [pageGate]
      by_cases hgt : eng.pageCount r.1 > m
      · rw [if_pos hgt]
        exact Or.inr (Or.inl rfl)
      · rw [if_neg hgt]
        by_cases hz : (eng.pageCount r.1 == 0) = true
        · rw [if_pos hz]
          exact Or.inr (Or.inr (Or.inl rfl))
        · rw [if_neg hz]
          exact Or.inr (Or.inr (Or.inr rfl))

/-- Unfolding of the single-file converter on engine failure: the failure
propagates unchanged and nothing is written. -/
theorem convert_single_error (eng : Engine) (pdf_path output_dir : String)
    (oname : Option String) (fs : FS) (e : String)
    (hana : eng.analyze pdf_path = .error e) :
    convert_single_pdf_to_md eng pdf_path output_dir oname fs = .error e := by
  unfold convert_single_pdf_to_md
  rw [hana]

/-- Unfolding of the conversion step on engine failure: the temp tree is
removed by the `finally` and the outcome is the failure message. -/
theorem doConversion_error (eng : Engine) (out_dir : String) (i : Nat)
    (pp : String) (pid : Int) (oname fmp : String) (fs : FS) (e : String)
    (hana : eng.analyze pp = .error e) :
    doConversion eng out_dir i pp pid oname fmp fs =
      (fs.rmtree (tempDir out_dir i), .failed e) := by
  unfold doConversion
  rw [convert_single_error _ _ _ _ _ _ hana]

/-- Unfolding of the batch loop. -/
theorem runBatch_cons (eng : Engine) (out_dir : String) (pm : Option Nat)
    (force : Bool) (i : Nat) (r : String × Int) (rest : List (String × Int))
    (fs : FS) :
    runBatch eng out_dir pm force i (r :: rest) fs =
      ((runBatch eng out_dir pm force (i + 1) rest
          (processOne eng out_dir pm force i r fs).1).1,
        (processOne eng out_dir pm force i r fs).2 ::
          (runBatch eng out_dir pm force (i + 1) rest
            (processOne eng out_dir pm force i r fs).1).2) := rfl

/-- Naming invariant of the batch loop: outcome paths are canonical and
added files are canonical markdown files or prefixed images. -/
theorem runBatch_naming (eng : Engine) (out_dir : String) (pm : Option Nat)
    (force : Bool) :
    ∀ (reqs : List (String × Int)) (i : Nat) (fs : FS),
    List.Forall₂ (fun (r : String × Int) (o : Outcome) => ∀ p,
        (o = .success p ∨ o = .alreadyDone p) →
        p = reqFinalPath out_dir r ∧ isUnder out_dir p = true)
      reqs (runBatch eng out_dir pm force i reqs fs).2
    ∧ (∀ p, ((runBatch eng out_dir pm force i reqs fs).1).existsFile p = true →
        fs.existsFile p = true ∨ (∃ r ∈ reqs, p = reqFinalPath out_dir r) ∨
        (∃ r ∈ reqs, ∃ nm, allowedImageExt nm = true ∧
          p = pathJoin (pathJoin out_dir IMAGES_DIR_NAME) (toString r.2 ++ "_" ++ nm))) := by
  intro reqs
  induction reqs with
  | nil =>
    intro i fs
    exact ⟨List.Forall₂.nil, fun p h => Or.inl h⟩
  | cons r rest ih =>
    intro i fs
    have lift : ∀ (fs' : FS) (p : String),
        (fs'.existsFile p = true ∨ (∃ r' ∈ rest, p = reqFinalPath out_dir r') ∨
          (∃ r' ∈ rest, ∃ nm, allowedImageExt nm = true ∧
            p = pathJoin (pathJoin out_dir IMAGES_DIR_NAME) (toString r'.2 ++ "_" ++ nm))) →
        (fs'.existsFile p = true ∨ (∃ r' ∈ r :: rest, p = reqFinalPath out_dir r') ∨
          (∃ r' ∈ r :: rest, ∃ nm, allowedImageExt nm = true ∧
            p = pathJoin (pathJoin out_dir IMAGES_DIR_NAME) (toString r'.2 ++ "_" ++ nm))) := by
      intro fs' p h
      rcases h with h | ⟨r', hr', h⟩ | ⟨r', hr', h⟩
      · exact Or.inl h
      · exact Or.inr (Or.inl ⟨r', List.mem_cons_of_mem _ hr', h⟩)
      · exact Or.inr (Or.inr ⟨r', List.mem_cons_of_mem _ hr', h⟩)
    rcases processOne_shape eng out_dir pm force i r fs with hs | hs | hs | hs
    · rw [runBatch_cons]
      simp only [hs]
      refine ⟨List.Forall₂.cons ?_ (ih (i + 1) fs).1, ?_⟩
      · intro p hp
        rcases hp with hp | hp
        · exact absurd hp (by simp)
        · have : p = reqFinalPath out_dir r := by
            have := hp.symm
            simpa using this
          exact ⟨this, this ▸ isUnder_reqFinalPath out_dir r⟩
      · intro p hp
        exact lift fs p ((ih (i + 1) fs).2 p hp)
    · rw [runBatch_cons]
      simp only [hs]
      refine ⟨List.Forall₂.cons ?_ (ih (i + 1) fs).1, ?_⟩
      · intro p hp
        rcases hp with hp | hp <;> exact absurd hp (by simp)
      · intro p hp
        exact lift fs p ((ih (i + 1) fs).2 p hp)
    · rw [runBatch_cons]
      simp only [hs]
      refine ⟨List.Forall₂.cons ?_ (ih (i + 1) fs).1, ?_⟩
      · intro p hp
        rcases hp with hp | hp <;> exact absurd hp (by simp)
      · intro p hp
        exact lift fs p ((ih (i + 1) fs).2 p hp)
    · rw [runBatch_cons]
      simp only [hs]
      cases hana : eng.analyze r.1 with
      | error e =>
        rw [doConversion_error _ _ _ _ _ _ _ _ _ hana]
        simp only []
        refine ⟨List.Forall₂.cons ?_ (ih (i + 1) _).1, ?_⟩
        · intro p hp
          rcases hp with hp | hp <;> exact absurd hp (by simp)
        · intro p hp
          rcases lift _ p ((ih (i + 1) _).2 p hp) with h | h | h
          · exact Or.inl (FS.existsFile_rmtree_sub _ _ _ h).1
          · exact Or.inr (Or.inl h)
          · exact Or.inr (Or.inr h)
      | ok v =>
        rcases v with ⟨md, imgs⟩
        have hok := doConversion_ok eng out_dir i r.1 r.2 (reqOutputName r)
          (reqFinalPath out_dir r) fs md imgs hana
          (reqFinalPath_not_under_temp out_dir i r)
        refine ⟨List.Forall₂.cons ?_ (ih (i + 1) _).1, ?_⟩
        · intro p hp
          rcases hp with hp | hp
          · rw [hok.1] at hp
            have hpfmp : p = reqFinalPath out_dir r := by
              have := hp.symm
              simpa using this
            exact ⟨hpfmp, hpfmp ▸ isUnder_reqFinalPath out_dir r⟩
          · rw [hok.1] at hp
            exact absurd hp (by simp)
        · intro p hp
          rcases lift _ p ((ih (i + 1) _).2 p hp) with h | h | h
          · rcases doConversion_adds eng out_dir i r.1 r.2 (reqOutputName r)
              (reqFinalPath out_dir r) fs p h with h' | h' | ⟨nm, hext, h'⟩
            · exact Or.inl h'
            · exact Or.inr (Or.inl ⟨r, List.mem_cons_self _ _, h'⟩)
            · exact Or.inr (Or.inr ⟨r, List.mem_cons_self _ _, nm, hext, h'⟩)
          · exact Or.inr (Or.inl h)
          · exact Or.inr (Or.inr h)

/-- Claim C7: along any batch run, every request's success or
already-converted outcome carries exactly the canonical path
`out_dir/{identifier}_{basename}.md`, which lies under the declared
output root; and every file the run adds is either such a canonical
markdown file or an identifier-prefixed image (of recognised extension)
inside the shared images directory. -/
theorem C7_output_naming (eng : Engine) (out_dir : String) (pm : Option Nat)
    (force : Bool) :
    ∀ (reqs : List (String × Int)) (i : Nat) (fs : FS),
    List.Forall₂ (fun (r : String × Int) (o : Outcome) => ∀ p,
        (o = .success p ∨ o = .alreadyDone p) →
        p = reqFinalPath out_dir r ∧ isUnder out_dir p = true)
      reqs (runBatch eng out_dir pm force i reqs fs).2
    ∧ (∀ p, ((runBatch eng out_dir pm force i reqs fs).1).existsFile p = true →
        fs.existsFile p = true ∨ (∃ r ∈ reqs, p = reqFinalPath out_dir r) ∨
        (∃ r ∈ reqs, ∃ nm, allowedImageExt nm = true ∧
          p = pathJoin (pathJoin out_dir IMAGES_DIR_NAME) (toString r.2 ++ "_" ++ nm))) :=
  runBatch_naming eng out_dir pm force

/-- Witness for C7: a concrete one-request batch. -/
theorem C7_witness :
    List.Forall₂ (fun (r : String × Int) (o : Outcome) => ∀ p,
        (o = .success p ∨ o = .alreadyDone p) →
        p = reqFinalPath "out" r ∧ isUnder "out" p = true)
      [("docs/a.pdf", (5 : Int))]
      (runBatch engSmall "out" none false 0 [("docs/a.pdf", 5)] []).2
    ∧ (∀ p, ((runBatch engSmall "out" none false 0 [("docs/a.pdf", 5)] []).1).existsFile
        p = true →
        FS.existsFile [] p = true ∨
        (∃ r ∈ [("docs/a.pdf", (5 : Int))], p = reqFinalPath "out" r) ∨
        (∃ r ∈ [("docs/a.pdf", (5 : Int))], ∃ nm, allowedImageExt nm = true ∧
          p = pathJoin (pathJoin "out" IMAGES_DIR_NAME) (toString r.2 ++ "_" ++ nm))) :=
  C7_output_naming engSmall "out" none false [("docs/a.pdf", 5)] 0 []

/-! Simulation machinery for failure isolation (claim C2): two filesystem
states that agree on the existence of every slash-free name under the
output root drive the batch loop to identical outcome traces, regardless
of the temp-directory numbering. -/

/-- The failure outcomes of a trace. -/
def isFailedOutcome : Outcome → Bool
  | .failed _ => true
  | _ => false

/-- Agreement of two filesystem states on every slash-free name directly
under the output root — exactly the paths the loop's existence check can
probe. -/
def fsEquivOn (out_dir : String) (fs fs' : FS) : Prop :=
  ∀ nm : String, '/' ∉ nm.data →
    fs.existsFile (pathJoin out_dir nm) = fs'.existsFile (pathJoin out_dir nm)

/-- Removing a temp tree does not change existence at plain names under
the output root. -/
theorem fsEquivOn_rmtree_temp (out_dir : String) (j : Nat) (fs : FS) :
    fsEquivOn out_dir (fs.rmtree (tempDir out_dir j)) fs := by
  intro nm hnm
  exact FS.existsFile_rmtree_preserve _ _ _
    (isUnder_pathJoin_plain_false out_dir ("temp_" ++ toString j) nm hnm)

/-- `fsEquivOn` is transitive and symmetric enough for chaining. -/
theorem fsEquivOn_trans (out_dir : String) (fs₁ fs₂ fs₃ : FS)
    (h₁ : fsEquivOn out_dir fs₁ fs₂) (h₂ : fsEquivOn out_dir fs₂ fs₃) :
    fsEquivOn out_dir fs₁ fs₃ :=
  fun nm hnm => (h₁ nm hnm).trans (h₂ nm hnm)

/-- Symmetry of `fsEquivOn`. -/
theorem fsEquivOn_symm (out_dir : String) (fs₁ fs₂ : FS)
    (h : fsEquivOn out_dir fs₁ fs₂) : fsEquivOn out_dir fs₂ fs₁ :=
  fun nm hnm => (h nm hnm).symm

/-- A successful conversion step preserves every file outside its temp
directory. -/
theorem doConversion_preserve (eng : Engine) (out_dir : String) (i : Nat)
    (pp : String) (pid : Int) (oname fmp : String) (fs : FS) (p : String)
    (hp : isUnder (tempDir out_dir i) p = false)
    (h : fs.existsFile p = true) :
    ((doConversion eng out_dir i pp pid oname fmp fs).1).existsFile p = true := by
  cases hana : eng.analyze pp with
  | error e =>
    rw [doConversion_error _ _ _ _ _ _ _ _ _ hana]
    rw [FS.existsFile_rmtree_preserve _ _ _ hp]
    exact h
  | ok v =>
    rcases v with ⟨md, imgs⟩
    unfold doConversion
    rw [convert_single_spec eng pp (tempDir out_dir i) oname fs md imgs hana]
    simp only []
    rw [FS.existsFile_rmtree_preserve _ _ _ hp]
    have hpimg : isUnder (pathJoin (tempDir out_dir i) IMAGES_DIR_NAME) p = false := by
      rw [Bool.eq_false_iff]
      intro hc
      exact absurd (hp.symm.trans (isUnder_of_isUnder_pathJoin _ _ _ hc)) (by simp)
    refine MAR_preserve _ _ _ _ _ _ _ hpimg ?_
    have hpsrc : p ≠ pathJoin (tempDir out_dir i) (oname ++ ".md") := by
      intro hps
      rw [hps, isUnder_pathJoin] at hp
      exact absurd hp (by simp)
    refine FS.existsFile_mvFile_preserve _ _ _ _ hpsrc ?_
    rw [FS.existsFile_write]
    rw [existsFile_foldl_write_preserve _ _ _ _ h]
    simp

/-- Existence at a plain name under the output root after a conversion
step: the step sets its canonical markdown path and touches no other
plain name. -/
theorem doConversion_existsFile_plain (eng : Engine) (out_dir : String)
    (i : Nat) (pp : String) (pid : Int) (oname nmf : String) (fs : FS)
    (nm : String) (hnm : '/' ∉ nm.data) (hnmf : '/' ∉ nmf.data)
    (hne : pathJoin out_dir nm ≠ pathJoin out_dir nmf) :
    ((doConversion eng out_dir i pp pid oname (pathJoin out_dir nmf) fs).1).existsFile
      (pathJoin out_dir nm) = fs.existsFile (pathJoin out_dir nm) := by
  by_cases hex : fs.existsFile (pathJoin out_dir nm) = true
  · rw [hex]
    exact doConversion_preserve eng out_dir i pp pid oname (pathJoin out_dir nmf) fs
      (pathJoin out_dir nm)
      (isUnder_pathJoin_plain_false out_dir ("temp_" ++ toString i) nm hnm) hex
  · rw [Bool.eq_false_iff.mpr hex, Bool.eq_false_iff]
    intro hc
    rcases doConversion_adds eng out_dir i pp pid oname (pathJoin out_dir nmf) fs _ hc
      with h | h | ⟨nm', _, h⟩
    · exact hex h
    · exact hne h
    · exact pathJoin_plain_ne_deep out_dir IMAGES_DIR_NAME
        (toString pid ++ "_" ++ nm') nm hnm h

/-- Outcome and equivalence congruence of the conversion step: equivalent
states, possibly different temp numbering, same outcome. -/
theorem doConversion_congr (eng : Engine) (out_dir : String) (i i' : Nat)
    (pp : String) (pid : Int) (oname nmf : String) (fs fs' : FS)
    (hnmf : '/' ∉ nmf.data) (h : fsEquivOn out_dir fs fs') :
    (doConversion eng out_dir i pp pid oname (pathJoin out_dir nmf) fs).2 =
      (doConversion eng out_dir i' pp pid oname (pathJoin out_dir nmf) fs').2
    ∧ fsEquivOn out_dir
        (doConversion eng out_dir i pp pid oname (pathJoin out_dir nmf) fs).1
        (doConversion eng out_dir i' pp pid oname (pathJoin out_dir nmf) fs').1 := by
  cases hana : eng.analyze pp with
  | error e =>
    rw [doConversion_error _ _ _ _ _ _ _ _ _ hana,
      doConversion_error _ _ _ _ _ _ _ _ _ hana]
    refine ⟨rfl, ?_⟩
    refine fsEquivOn_trans _ _ _ _ (fsEquivOn_rmtree_temp out_dir i fs) ?_
    exact fsEquivOn_trans _ _ _ _ h
      (fsEquivOn_symm _ _ _ (fsEquivOn_rmtree_temp out_dir i' fs'))
  | ok v =>
    rcases v with ⟨md, imgs⟩
    have h1 := doConversion_ok eng out_dir i pp pid oname (pathJoin out_dir nmf) fs md
      imgs hana (isUnder_pathJoin_plain_false out_dir ("temp_" ++ toString i) nmf hnmf)
    have h2 := doConversion_ok eng out_dir i' pp pid oname (pathJoin out_dir nmf) fs' md
      imgs hana (isUnder_pathJoin_plain_false out_dir ("temp_" ++ toString i') nmf hnmf)
    refine ⟨h1.1.trans h2.1.symm, ?_⟩
    intro nm hnm
    by_cases hfmp : pathJoin out_dir nm = pathJoin out_dir nmf
    · rw [hfmp, h1.2, h2.2]
    · rw [doConversion_existsFile_plain eng out_dir i pp pid oname nmf fs nm hnm hnmf hfmp,
        doConversion_existsFile_plain eng out_dir i' pp pid oname nmf fs' nm hnm hnmf hfmp]
      exact h nm hnm

/-- Outcome and equivalence congruence of the page filter and conversion
block. -/
theorem pageGate_congr (eng : Engine) (out_dir : String) (pm : Option Nat)
    (i i' : Nat) (r : String × Int) (fs fs' : FS)
    (h : fsEquivOn out_dir fs fs') :
    (pageGate eng out_dir pm i r fs).2 = (pageGate eng out_dir pm i' r fs').2
    ∧ fsEquivOn out_dir (pageGate eng out_dir pm i r fs).1
        (pageGate eng out_dir pm i' r fs').1 := by
  have hplain : '/' ∉ (reqOutputName r ++ ".md").data := reqOutputName_no_slash r
  cases pm with
  | none =>
    simp only [pageGate]
    exact doConversion_congr eng out_dir i i' r.1 r.2 (reqOutputName r)
      (reqOutputName r ++ ".md") fs fs' hplain h
  | some m =>
    simp only [pageGate]
    by_cases hgt : eng.pageCount r.1 > m
    · rw [if_pos hgt, if_pos hgt]
      exact ⟨rfl, h⟩
    · rw [if_neg hgt, if_neg hgt]
      by_cases hz : (eng.pageCount r.1 == 0) = true
      · rw [if_pos hz, if_pos hz]
        exact ⟨rfl, h⟩
      · rw [if_neg hz, if_neg hz]
        exact doConversion_congr eng out_dir i i' r.1 r.2 (reqOutputName r)
          (reqOutputName r ++ ".md") fs fs' hplain h

/-- Outcome and equivalence congruence of the whole loop body (without
forced rebuild). -/
theorem processOne_congr (eng : Engine) (out_dir : String) (pm : Option Nat)
    (i i' : Nat) (r : String × Int) (fs fs' : FS)
    (h : fsEquivOn out_dir fs fs') :
    (processOne eng out_dir pm false i r fs).2 =
      (processOne eng out_dir pm false i' r fs').2
    ∧ fsEquivOn out_dir (processOne eng out_dir pm false i r fs).1
        (processOne eng out_dir pm false i' r fs').1 := by
  have hexeq : fs.existsFile (reqFinalPath out_dir r) =
      fs'.existsFile (reqFinalPath out_dir r) :=
    h (reqOutputName r ++ ".md") (reqOutputName_no_slash r)
  unfold processOne
  simp only [Bool.not_false, Bool.true_and]
  rw [← hexeq]
  by_cases hex : fs.existsFile (reqFinalPath out_dir r) = true
  · rw [if_pos hex, if_pos hex]
    exact ⟨rfl, h⟩
  · rw [if_neg hex, if_neg hex]
    exact pageGate_congr eng out_dir pm i i' r fs fs' h

/-- Simulation of whole batch runs: equivalent starting states and any
temp numbering produce identical outcome traces and equivalent final
states. -/
theorem runBatch_congr (eng : Engine) (out_dir : String) (pm : Option Nat) :
    ∀ (reqs : List (String × Int)) (i i' : Nat) (fs fs' : FS),
    fsEquivOn out_dir fs fs' →
    (runBatch eng out_dir pm false i reqs fs).2 =
      (runBatch eng out_dir pm false i' reqs fs').2
    ∧ fsEquivOn out_dir (runBatch eng out_dir pm false i reqs fs).1
        (runBatch eng out_dir pm false i' reqs fs').1 := by
  intro reqs
  induction reqs with
  | nil => exact fun i i' fs fs' h => ⟨rfl, h⟩
  | cons r rest ih =>
    intro i i' fs fs' h
    rw [runBatch_cons, runBatch_cons]
    have hstep := processOne_congr eng out_dir pm i i' r fs fs' h
    have htail := ih (i + 1) (i' + 1)
      (processOne eng out_dir pm false i r fs).1
      (processOne eng out_dir pm false i' r fs').1 hstep.2
    exact ⟨by rw [hstep.1, htail.1], htail.2⟩

/-- The batch loop yields exactly one outcome per request: no failure
aborts the remaining batch. -/
theorem runBatch_length (eng : Engine) (out_dir : String) (pm : Option Nat)
    (force : Bool) : ∀ (reqs : List (String × Int)) (k : Nat) (fs0 : FS),
    ((runBatch eng out_dir pm force k reqs fs0).2).length = reqs.length := by
  intro reqs
  induction reqs with
  | nil => intro k fs0; rfl
  | cons r rest ih =>
    intro k fs0
    rw [runBatch_cons]
    simp only [List.length_cons]
    rw [ih]

/-- Failed outcomes are invisible in every end-of-run artifact: the
returned list and all recorded tallies are unchanged when the failures
are dropped from the trace. -/
theorem failed_outcomes_invisible (os : List Outcome) :
    generatedFiles os = generatedFiles (os.filter (fun o => !(isFailedOutcome o)))
    ∧ skippedFiles os = skippedFiles (os.filter (fun o => !(isFailedOutcome o)))
    ∧ alreadyConvertedFiles os =
        alreadyConvertedFiles (os.filter (fun o => !(isFailedOutcome o)))
    ∧ summaryOf os = summaryOf (os.filter (fun o => !(isFailedOutcome o))) := by
  have hg : generatedFiles os =
      generatedFiles (os.filter (fun o => !(isFailedOutcome o))) := by
    induction os with
    | nil => rfl
    | cons o os ih =>
      cases o <;>
        simp [generatedFiles, isFailedOutcome, List.filter_cons,
          List.filterMap_cons] at ih ⊢ <;> exact ih
  have hs : skippedFiles os =
      skippedFiles (os.filter (fun o => !(isFailedOutcome o))) := by
    clear hg
    induction os with
    | nil => rfl
    | cons o os ih =>
      cases o <;>
        simp [skippedFiles, isFailedOutcome, List.filter_cons,
          List.filterMap_cons] at ih ⊢ <;> exact ih
  have ha : alreadyConvertedFiles os =
      alreadyConvertedFiles (os.filter (fun o => !(isFailedOutcome o))) := by
    clear hg hs
    induction os with
    | nil => rfl
    | cons o os ih =>
      cases o <;>
        simp [alreadyConvertedFiles, isFailedOutcome, List.filter_cons,
          List.filterMap_cons] at ih ⊢ <;> exact ih
  refine ⟨hg, hs, ha, ?_⟩
  unfold summaryOf
  rw [hg, hs, ha]

/-- Claim C2 (amended): an engine failure on one request is caught inside
that request's loop iteration — the outcome is `failed` carrying the
exception's message, every request still yields exactly one outcome, and
the remaining requests produce the same outcomes as a run in which the
failing request was omitted entirely (any temp numbering).  However the
failure is recorded nowhere in the end-of-run data: the returned file
list and every printed tally are identical to those of a trace with the
failures removed — the final summary has no failed count. -/
theorem C2_failure_isolated (eng : Engine) (out_dir : String) (pm : Option Nat)
    (i j : Nat) (r : String × Int) (rest : List (String × Int)) (fs : FS)
    (e : String) (hana : eng.analyze r.1 = .error e)
    (hex : fs.existsFile (reqFinalPath out_dir r) = false)
    (hpm : pm = none ∨ ∃ m, pm = some m ∧ ¬ eng.pageCount r.1 > m ∧
      ¬ (eng.pageCount r.1 == 0) = true) :
    (runBatch eng out_dir pm false i (r :: rest) fs).2 =
      .failed e :: (runBatch eng out_dir pm false j rest fs).2
    ∧ (∀ (reqs : List (String × Int)) (k : Nat) (fs0 : FS),
        ((runBatch eng out_dir pm false k reqs fs0).2).length = reqs.length)
    ∧ (∀ os : List Outcome,
        generatedFiles os = generatedFiles (os.filter (fun o => !(isFailedOutcome o)))
        ∧ skippedFiles os = skippedFiles (os.filter (fun o => !(isFailedOutcome o)))
        ∧ alreadyConvertedFiles os =
            alreadyConvertedFiles (os.filter (fun o => !(isFailedOutcome o)))
        ∧ summaryOf os = summaryOf (os.filter (fun o => !(isFailedOutcome o)))) := by
  refine ⟨?_, runBatch_length eng out_dir pm false, failed_outcomes_invisible⟩
  rw [runBatch_cons]
  have hstep : processOne eng out_dir pm false i r fs =
      (fs.rmtree (tempDir out_dir i), .failed e) := by
    unfold processOne
    rw [if_neg (by simp [hex])]
    rcases hpm with hpm | ⟨m, hpm, hgt, hz⟩
    · rw [hpm]
      simp only [pageGate]
      exact doConversion_error _ _ _ _ _ _ _ _ _ hana
    · rw [hpm]
      simp only [pageGate]
      rw [if_neg hgt, if_neg hz]
      exact doConversion_error _ _ _ _ _ _ _ _ _ hana
  rw [hstep]
  exact congrArg (List.cons (Outcome.failed e))
    (runBatch_congr eng out_dir pm rest (i + 1) j (fs.rmtree (tempDir out_dir i)) fs
      (fsEquivOn_rmtree_temp out_dir i fs)).1

/-- Witness for C2: `a.pdf` fails with `boom`; `b.pdf` is processed as in
a run without `a.pdf`. -/
theorem C2_witness :
    (runBatch engBoom "out" none false 0 [("a.pdf", 1), ("b.pdf", 2)] []).2 =
      .failed "boom" :: (runBatch engBoom "out" none false 7 [("b.pdf", 2)] []).2
    ∧ (∀ (reqs : List (String × Int)) (k : Nat) (fs0 : FS),
        ((runBatch engBoom "out" none false k reqs fs0).2).length = reqs.length)
    ∧ (∀ os : List Outcome,
        generatedFiles os = generatedFiles (os.filter (fun o => !(isFailedOutcome o)))
        ∧ skippedFiles os = skippedFiles (os.filter (fun o => !(isFailedOutcome o)))
        ∧ alreadyConvertedFiles os =
            alreadyConvertedFiles (os.filter (fun o => !(isFailedOutcome o)))
        ∧ summaryOf os = summaryOf (os.filter (fun o => !(isFailedOutcome o)))) :=
  C2_failure_isolated engBoom "out" none 0 7 ("a.pdf", 1) [("b.pdf", 2)] [] "boom"
    rfl rfl (Or.inl rfl)

/-- Counterexample for C2 as stated: a batch whose only request fails with
`boom` ends with a summary and recorded lists identical to those of an
empty batch — the failure and its reason are not summarized at the end of
the run, and the returned result records no Failed outcome. -/
theorem C2_counterexample :
    convert_multiple_pdfs_to_md engBoom ["a.pdf"] [1] "out" none false [] =
      .ok ([], [.failed "boom"])
    ∧ summaryOf [.failed "boom"] = summaryOf []
    ∧ generatedFiles [.failed "boom"] = generatedFiles []
    ∧ skippedFiles [.failed "boom"] = skippedFiles []
    ∧ alreadyConvertedFiles [.failed "boom"] = alreadyConvertedFiles [] :=
  ⟨rfl, rfl, rfl, rfl, rfl⟩

/-! Resumability of the batch loop (claim C1): a second run over the same
requests against the filesystem left by a failure-free first run performs
no conversion and resolves every produced file via the already-converted
branch. -/

/-- Exhaustive dispatch of the loop body with `force_rebuild = false`,
recording the branch conditions. -/
theorem processOne_false_cases (eng : Engine) (out_dir : String)
    (pm : Option Nat) (i : Nat) (r : String × Int) (fs : FS) :
    (fs.existsFile (reqFinalPath out_dir r) = true ∧
      processOne eng out_dir pm false i r fs =
        (fs, .alreadyDone (reqFinalPath out_dir r)))
    ∨ (fs.existsFile (reqFinalPath out_dir r) = false ∧
       ((∃ m, pm = some m ∧ eng.pageCount r.1 > m ∧
          processOne eng out_dir pm false i r fs = (fs, .skippedTooLarge r.1))
        ∨ (∃ m, pm = some m ∧ ¬ eng.pageCount r.1 > m ∧
            (eng.pageCount r.1 == 0) = true ∧
            processOne eng out_dir pm false i r fs = (fs, .skippedZeroPages r.1))
        ∨ ((pm = none ∨ ∃ m, pm = some m ∧ ¬ eng.pageCount r.1 > m ∧
              ¬ (eng.pageCount r.1 == 0) = true) ∧
           processOne eng out_dir pm false i r fs =
             doConversion eng out_dir i r.1 r.2 (reqOutputName r)
               (reqFinalPath out_dir r) fs))) := by
  unfold processOne
  simp only [Bool.not_false, Bool.true_and]
  by_cases hex : fs.existsFile (reqFinalPath out_dir r) = true
  · rw [if_pos hex]
    exact Or.inl ⟨hex, rfl⟩
  · rw [if_neg hex]
    refine Or.inr ⟨by simpa using hex, ?_⟩
    cases pm with
    | none =>
      exact Or.inr (Or.inr ⟨Or.inl rfl, by simp only [pageGate]⟩)
    | some m =>
      simp only [pageGate]
      by_cases hgt : eng.pageCount r.1 > m
      · rw [if_pos hgt]
        exact Or.inl ⟨m, rfl, hgt, rfl⟩
      · rw [if_neg hgt]
        by_cases hz : (eng.pageCount r.1 == 0) = true
        · rw [if_pos hz]
          exact Or.inr (Or.inl ⟨m, rfl, hgt, hz, rfl⟩)
        · rw [if_neg hz]
          exact Or.inr (Or.inr ⟨Or.inr ⟨m, rfl, hgt, hz⟩, rfl⟩)

/-- The loop body preserves existence of any plain-named file under the
output root. -/
theorem processOne_preserve_plain (eng : Engine) (out_dir : String)
    (pm : Option Nat) (force : Bool) (i : Nat) (r : String × Int) (fs : FS)
    (nm : String) (hnm : '/' ∉ nm.data)
    (h : fs.existsFile (pathJoin out_dir nm) = true) :
    ((processOne eng out_dir pm force i r fs).1).existsFile (pathJoin out_dir nm)
      = true := by
  rcases processOne_shape eng out_dir pm force i r fs with hs | hs | hs | hs <;>
    rw [hs]
  · exact h
  · exact h
  · exact h
  · exact doConversion_preserve eng out_dir i r.1 r.2 (reqOutputName r)
      (reqFinalPath out_dir r) fs (pathJoin out_dir nm)
      (isUnder_pathJoin_plain_false out_dir ("temp_" ++ toString i) nm hnm) h

/-- The batch loop preserves existence of any plain-named file under the
output root. -/
theorem runBatch_mono_plain (eng : Engine) (out_dir : String) (pm : Option Nat)
    (force : Bool) : ∀ (reqs : List (String × Int)) (i : Nat) (fs : FS)
    (nm : String), '/' ∉ nm.data →
    fs.existsFile (pathJoin out_dir nm) = true →
    ((runBatch eng out_dir pm force i reqs fs).1).existsFile (pathJoin out_dir nm)
      = true := by
  intro reqs
  induction reqs with
  | nil => intro i fs nm _ h; exact h
  | cons r rest ih =>
    intro i fs nm hnm h
    rw [runBatch_cons]
    exact ih (i + 1) _ nm hnm
      (processOne_preserve_plain eng out_dir pm force i r fs nm hnm h)

/-- What a first-run outcome guarantees about the first run's final
filesystem state `fs₁`, as needed to replay the request. -/
def replayOk (eng : Engine) (out_dir : String) (pm : Option Nat) (fs₁ : FS)
    (r : String × Int) (o : Outcome) : Prop :=
  match o with
  | .alreadyDone p => p = reqFinalPath out_dir r ∧ fs₁.existsFile p = true
  | .success p => p = reqFinalPath out_dir r ∧ fs₁.existsFile p = true
  | .skippedTooLarge p => p = r.1 ∧
      fs₁.existsFile (reqFinalPath out_dir r) = false ∧
      ∃ m, pm = some m ∧ eng.pageCount r.1 > m
  | .skippedZeroPages p => p = r.1 ∧
      fs₁.existsFile (reqFinalPath out_dir r) = false ∧
      ∃ m, pm = some m ∧ ¬ eng.pageCount r.1 > m ∧ (eng.pageCount r.1 == 0) = true
  | .failed _ => False

/-- A failure-free first run with pairwise-distinct output names leaves a
final state against which each outcome can be replayed: produced files
exist, and skipped requests' canonical outputs still do not exist. -/
theorem runBatch_replayOk (eng : Engine) (out_dir : String) (pm : Option Nat) :
    ∀ (reqs : List (String × Int)) (i : Nat) (fs : FS),
    List.Pairwise (fun r s => reqOutputName r ≠ reqOutputName s) reqs →
    (∀ o ∈ (runBatch eng out_dir pm false i reqs fs).2, isFailedOutcome o = false) →
    List.Forall₂ (replayOk eng out_dir pm (runBatch eng out_dir pm false i reqs fs).1)
      reqs (runBatch eng out_dir pm false i reqs fs).2 := by
  intro reqs
  induction reqs with
  | nil => intro i fs _ _; exact List.Forall₂.nil
  | cons r rest ih =>
    intro i fs hpair hnf
    rcases List.pairwise_cons.mp hpair with ⟨hhd, htail⟩
    rw [runBatch_cons] at hnf ⊢
    have hnf_head : isFailedOutcome (processOne eng out_dir pm false i r fs).2 = false :=
      hnf _ (List.mem_cons_self _ _)
    have hnf_tail : ∀ o ∈ (runBatch eng out_dir pm false (i + 1) rest
        (processOne eng out_dir pm false i r fs).1).2, isFailedOutcome o = false :=
      fun o ho => hnf o (List.mem_cons_of_mem _ ho)
    refine List.Forall₂.cons ?_ (ih (i + 1) _ htail hnf_tail)
    have hnotexists : ∀ (h0 : fs.existsFile (reqFinalPath out_dir r) = false),
        ((runBatch eng out_dir pm false (i + 1) rest fs).1).existsFile
          (reqFinalPath out_dir r) = false := by
      intro h0
      rw [Bool.eq_false_iff]
      intro hc
      rcases (runBatch_naming eng out_dir pm false rest (i + 1) fs).2 _ hc
        with h | ⟨r', hr', h⟩ | ⟨r', hr', ⟨nm, _, h⟩⟩
      · rw [h0] at h
        exact absurd h (by simp)
      · exact hhd r' hr' (reqFinalPath_inj out_dir r r' h)
      · exact reqFinalPath_ne_deep out_dir IMAGES_DIR_NAME
          (toString r'.2 ++ "_" ++ nm) r h
    rcases processOne_false_cases eng out_dir pm i r fs with
      ⟨hex, hs⟩ | ⟨hex, ⟨m, hm, hgt, hs⟩ | ⟨m, hm, hgt, hz, hs⟩ | ⟨hcond, hs⟩⟩
    · rw [hs]
      exact ⟨rfl, runBatch_mono_plain eng out_dir pm false rest (i + 1) fs
        (reqOutputName r ++ ".md") (reqOutputName_no_slash r) hex⟩
    · rw [hs]
      exact ⟨rfl, hnotexists hex, m, hm, hgt⟩
    · rw [hs]
      exact ⟨rfl, hnotexists hex, m, hm, hgt, hz⟩
    · rw [hs] at hnf_head ⊢
      cases hana : eng.analyze r.1 with
      | error e =>
        rw [doConversion_error _ _ _ _ _ _ _ _ _ hana] at hnf_head
        exact absurd hnf_head (by simp [isFailedOutcome])
      | ok v =>
        rcases v with ⟨md, imgs⟩
        have hok := doConversion_ok eng out_dir i r.1 r.2 (reqOutputName r)
          (reqFinalPath out_dir r) fs md imgs hana
          (reqFinalPath_not_under_temp out_dir i r)
        rw [hok.1]
        exact ⟨rfl, runBatch_mono_plain eng out_dir pm false rest (i + 1) _
          (reqOutputName r ++ ".md") (reqOutputName_no_slash r) hok.2⟩

/-- The second run's outcome for a request: produced files resolve via
the already-converted branch, skips repeat identically. -/
def replayOutcome : Outcome → Outcome
  | .success p => .alreadyDone p
  | o => o

/-- Replaying a batch: when every outcome of the first run is replayable
against the final state `fs₁`, running the batch over `fs₁` changes
nothing and maps each first-run outcome through `replayOutcome`. -/
theorem runBatch_replay (eng : Engine) (out_dir : String) (pm : Option Nat) :
    ∀ (reqs : List (String × Int)) (os : List Outcome) (fs₁ : FS) (i : Nat),
    List.Forall₂ (replayOk eng out_dir pm fs₁) reqs os →
    runBatch eng out_dir pm false i reqs fs₁ = (fs₁, os.map replayOutcome) := by
  intro reqs os fs₁
  induction reqs generalizing os with
  | nil =>
    intro i h
    cases h
    rfl
  | cons r rest ih =>
    intro i h
    cases h with
    | cons hr hrest =>
    rename_i o os'
    rw [runBatch_cons]
    have hstep : processOne eng out_dir pm false i r fs₁ = (fs₁, replayOutcome o) := by
      cases o with
      | alreadyDone p =>
        rcases hr with ⟨hp, hex⟩
        unfold processOne
        rw [hp] at hex
        rw [if_pos (by simp [hex])]
        rw [hp]
        rfl
      | success p =>
        rcases hr with ⟨hp, hex⟩
        unfold processOne
        rw [hp] at hex
        rw [if_pos (by simp [hex])]
        rw [hp]
        rfl
      | skippedTooLarge p =>
        rcases hr with ⟨hp, hex, m, hm, hgt⟩
        unfold processOne
        rw [if_neg (by simp [hex]), hm]
        simp only [pageGate]
        rw [if_pos hgt, hp]
        rfl
      | skippedZeroPages p =>
        rcases hr with ⟨hp, hex, m, hm, hgt, hz⟩
        unfold processOne
        rw [if_neg (by simp [hex]), hm]
        simp only [pageGate]
        rw [if_neg hgt, if_pos hz, hp]
        rfl
      | failed e => exact absurd hr (by simp [replayOk])
    rw [hstep]
    rw [ih os' (i + 1) hrest]
    rfl

/-- Replaying never invokes the conversion engine. -/
theorem conversionsPerformed_replay (os : List Outcome)
    (h : ∀ o ∈ os, isFailedOutcome o = false) :
    conversionsPerformed (os.map replayOutcome) = 0 := by
  induction os with
  | nil => rfl
  | cons o os ih =>
    have hh := h o (List.mem_cons_self _ _)
    have ht := ih (fun o' ho' => h o' (List.mem_cons_of_mem _ ho'))
    cases o <;>
      simp_all [conversionsPerformed, replayOutcome, isFailedOutcome, List.countP_cons]

/-- Replaying returns the same generated-file list. -/
theorem generatedFiles_replay (os : List Outcome) :
    generatedFiles (os.map replayOutcome) = generatedFiles os := by
  induction os with
  | nil => rfl
  | cons o os ih =>
    cases o <;> simp_all [generatedFiles, replayOutcome, List.filterMap_cons]

/-- Every produced file of the first run is resolved as already-converted
by the replay. -/
theorem replay_marks_alreadyDone (os : List Outcome) :
    List.Forall₂ (fun o₁ o₂ => ∀ p, (o₁ = .success p ∨ o₁ = .alreadyDone p) →
      o₂ = .alreadyDone p) os (os.map replayOutcome) := by
  induction os with
  | nil => exact List.Forall₂.nil
  | cons o os ih =>
    rw [List.map_cons]
    refine List.Forall₂.cons ?_ ih
    intro p hp
    cases o <;> rcases hp with hp | hp <;> simp_all [replayOutcome]

/-- Claim C1 (amended): after a first run with `force_rebuild = false`
whose outcomes include no failure, over requests with pairwise-distinct
output names, a second run over the same inputs against the first run's
final state changes nothing: it returns the first run's outcome trace
with every produced file resolved via the already-converted branch (an
existence check only), repeats each skip, performs zero conversions, and
returns the same generated-file list. -/
theorem C1_second_run_idempotent (eng : Engine) (fullpath_list : List String)
    (id_list : List Int) (out_dir : String) (pm : Option Nat) (fs fs₁ : FS)
    (os₁ : List Outcome) (hlen : id_list.length = fullpath_list.length)
    (h1 : convert_multiple_pdfs_to_md eng fullpath_list id_list out_dir pm false fs =
      .ok (fs₁, os₁))
    (hpair : List.Pairwise (fun r s => reqOutputName r ≠ reqOutputName s)
      (fullpath_list.zip id_list))
    (hnofail : ∀ o ∈ os₁, isFailedOutcome o = false) :
    convert_multiple_pdfs_to_md eng fullpath_list id_list out_dir pm false fs₁ =
      .ok (fs₁, os₁.map replayOutcome)
    ∧ conversionsPerformed (os₁.map replayOutcome) = 0
    ∧ generatedFiles (os₁.map replayOutcome) = generatedFiles os₁
    ∧ List.Forall₂ (fun o₁ o₂ => ∀ p, (o₁ = .success p ∨ o₁ = .alreadyDone p) →
        o₂ = .alreadyDone p) os₁ (os₁.map replayOutcome) := by
  have hrun : runBatch eng out_dir pm false 0 (fullpath_list.zip id_list) fs =
      (fs₁, os₁) := by
    unfold convert_multiple_pdfs_to_md at h1
    rw [if_neg (by simp [hlen])] at h1
    simpa using h1
  have hA := runBatch_replayOk eng out_dir pm (fullpath_list.zip id_list) 0 fs hpair
    (by rw [hrun]; exact hnofail)
  rw [hrun] at hA
  have hB := runBatch_replay eng out_dir pm (fullpath_list.zip id_list) os₁ fs₁ 0 hA
  refine ⟨?_, conversionsPerformed_replay os₁ hnofail, generatedFiles_replay os₁,
    replay_marks_alreadyDone os₁⟩
  unfold convert_multiple_pdfs_to_md
  rw [if_neg (by simp [hlen])]
  simpa using hB

/-- Counterexample for C1 as stated: a request whose conversion raises
leaves no output file, so the second run (over the identical filesystem
state the first run left behind) invokes the engine again — one
additional conversion attempt, not zero, and not an AlreadyDone outcome. -/
theorem C1_counterexample :
    convert_multiple_pdfs_to_md engBoom ["a.pdf"] [1] "out" none false [] =
      .ok ([], [.failed "boom"])
    ∧ conversionsPerformed [.failed "boom"] = 1 := ⟨rfl, rfl⟩

/-- Witness for C1: a one-request batch that succeeds, then replays as
already-converted with zero conversions. -/
theorem C1_witness :
    convert_multiple_pdfs_to_md engSmall ["docs/a.pdf"] [5] "out" none false
        [("out/5_a.md", "hello images/5_x.png"), ("out/images/5_x.png", "DATA")] =
      .ok ([("out/5_a.md", "hello images/5_x.png"), ("out/images/5_x.png", "DATA")],
        [Outcome.success "out/5_a.md"].map replayOutcome)
    ∧ conversionsPerformed ([Outcome.success "out/5_a.md"].map replayOutcome) = 0
    ∧ generatedFiles ([Outcome.success "out/5_a.md"].map replayOutcome) =
        generatedFiles [Outcome.success "out/5_a.md"]
    ∧ List.Forall₂ (fun o₁ o₂ => ∀ p, (o₁ = .success p ∨ o₁ = .alreadyDone p) →
        o₂ = .alreadyDone p) [Outcome.success "out/5_a.md"]
        ([Outcome.success "out/5_a.md"].map replayOutcome) :=
  C1_second_run_idempotent engSmall ["docs/a.pdf"] [5] "out" none []
    [("out/5_a.md", "hello images/5_x.png"), ("out/images/5_x.png", "DATA")]
    [Outcome.success "out/5_a.md"] rfl rfl (List.pairwise_singleton _ _)
    (by intro o ho; simp at ho; rw [ho]; rfl)

/-! Image relocation and reference rewriting (claim C4). -/

/-- Reading after a remove at a different path. -/
theorem FS.read_removeFile_ne (fs : FS) (p q : String) (h : p ≠ q) :
    (fs.removeFile q).read p = fs.read p := by
  unfold FS.removeFile FS.read
  rw [find?_filter_eq]
  intro e he
  have : e.1 = p := by simpa using he
  simp [this, h]

/-- Reading after a move that touches neither the source nor the
destination. -/
theorem FS.read_mvFile_ne (fs : FS) (s d p : String) (hps : p ≠ s) (hpd : p ≠ d) :
    (fs.mvFile s d).read p = fs.read p := by
  unfold FS.mvFile
  cases hr : fs.read s with
  | none => rfl
  | some c =>
    rw [FS.read_write_ne _ _ _ _ hpd, FS.read_removeFile_ne _ _ _ hps]

/-- The name a directory listing reports for a file joined to that
directory. -/
theorem relName_pathJoin (dir nm : String) :
    (⟨(pathJoin dir nm).data.drop (dir.data.length + 1)⟩ : String) = nm := by
  rw [data_pathJoin]
  have : dir.data ++ '/' :: nm.data = (dir.data ++ ['/']) ++ nm.data := by simp
  rw [this]
  have hlen : (dir.data ++ ['/']).length = dir.data.length + 1 := by simp
  rw [← hlen, List.drop_left]

/-- A listing of a directory holding no files is empty. -/
theorem listdir_nil_of_clean (fs : FS) (dir : String)
    (h : ∀ e ∈ fs, isUnder dir e.1 = false) : fs.listdir dir = [] := by
  induction fs with
  | nil => rfl
  | cons e fs ih =>
    unfold FS.listdir at ih ⊢
    rw [List.filterMap_cons]
    rw [h e (List.mem_cons_self _ _)]
    simp only [Bool.false_eq_true, if_false]
    exact ih (fun e' he' => h e' (List.mem_cons_of_mem _ he'))

/-- Removing a file outside the directory leaves its listing unchanged. -/
theorem listdir_removeFile_not_under (fs : FS) (dir p : String)
    (h : isUnder dir p = false) :
    (fs.removeFile p).listdir dir = fs.listdir dir := by
  induction fs with
  | nil => rfl
  | cons e fs ih =>
    unfold FS.removeFile FS.listdir at ih ⊢
    rw [List.filter_cons]
    by_cases he : e.1 = p
    · rw [if_neg (by simp [he])]
      rw [List.filterMap_cons, he, h]
      simp only [Bool.false_eq_true, if_false]
      exact ih
    · rw [if_pos (by simp [he])]
      rw [List.filterMap_cons, List.filterMap_cons]
      cases hu : isUnder dir e.1 with
      | false => simp only [Bool.false_eq_true, if_false]; exact ih
      | true => simp only [if_true]; rw [ih]

/-- Writing a file outside the directory leaves its listing unchanged. -/
theorem listdir_write_not_under (fs : FS) (dir p c : String)
    (h : isUnder dir p = false) :
    (fs.write p c).listdir dir = fs.listdir dir := by
  unfold FS.write
  show FS.listdir ((p, c) :: fs.removeFile p) dir = _
  unfold FS.listdir
  rw [List.filterMap_cons, h]
  simp only [Bool.false_eq_true, if_false]
  exact listdir_removeFile_not_under fs dir p h

/-- Writing a fresh file inside the directory prepends its name to the
listing. -/
theorem listdir_write_under_fresh (fs : FS) (dir nm c : String)
    (hfresh : ∀ d, (pathJoin dir nm, d) ∉ fs) :
    (fs.write (pathJoin dir nm) c).listdir dir = nm :: fs.listdir dir := by
  unfold FS.write
  show FS.listdir ((pathJoin dir nm, c) :: fs.removeFile (pathJoin dir nm)) dir = _
  have hrm : fs.removeFile (pathJoin dir nm) = fs := by
    unfold FS.removeFile
    rw [List.filter_eq_self]
    intro e he
    simp only [Bool.not_eq_eq_eq_not, Bool.not_true, beq_eq_false_iff_ne, ne_eq]
    intro hc
    exact hfresh e.2 (by rw [← hc]; exact he)
  rw [hrm]
  unfold FS.listdir
  rw [List.filterMap_cons, isUnder_pathJoin]
  simp only [if_true]
  rw [relName_pathJoin]

/-- Listing the temp images directory after the converter's image writes:
exactly the engine's image names, most recent first. -/
theorem listdir_foldl_writes (dir : String) (imgs : List (String × String)) :
    ∀ (fs : FS), (imgs.map Prod.fst).Nodup →
    (∀ nd ∈ imgs, ∀ d, (pathJoin dir nd.1, d) ∉ fs) →
    ((imgs.foldl (fun acc nd => FS.write acc (pathJoin dir nd.1) nd.2) fs).listdir dir)
      = (imgs.map Prod.fst).reverse ++ fs.listdir dir := by
  induction imgs with
  | nil => intro fs _ _; simp
  | cons nd imgs ih =>
    intro fs hnodup hfresh
    rw [List.foldl_cons]
    have hnodup' : (imgs.map Prod.fst).Nodup := by
      rw [List.map_cons] at hnodup
      exact (List.nodup_cons.mp hnodup).2
    have hne : ∀ nd' ∈ imgs, nd'.1 ≠ nd.1 := by
      intro nd' hnd' hc
      rw [List.map_cons] at hnodup
      exact (List.nodup_cons.mp hnodup).1 (hc ▸ List.mem_map_of_mem Prod.fst hnd')
    have hfresh' : ∀ nd' ∈ imgs, ∀ d,
        (pathJoin dir nd'.1, d) ∉ FS.write fs (pathJoin dir nd.1) nd.2 := by
      intro nd' hnd' d hc
      unfold FS.write at hc
      rcases List.mem_cons.mp hc with hc | hc
      · have := congrArg Prod.fst hc
        exact hne nd' hnd' (pathJoin_inj dir _ _ this)
      · exact hfresh nd' (List.mem_cons_of_mem _ hnd') d (List.mem_of_mem_filter hc)
    rw [ih _ hnodup' hfresh']
    rw [listdir_write_under_fresh fs dir nd.1 nd.2 (hfresh nd (List.mem_cons_self _ _))]
    simp

/-- `Nat.toDigitsCore` never shrinks its accumulator. -/
theorem toDigitsCore_length (b : Nat) (f : Nat) :
    ∀ (n : Nat) (acc : List Char),
    acc.length ≤ (Nat.toDigitsCore b f n acc).length := by
  induction f with
  | zero => intro n acc; exact Nat.le_refl _
  | succ f ih =>
    intro n acc
    rw [Nat.toDigitsCore]
    by_cases hz : n / b = 0
    · rw [if_pos hz]
      simp
    · rw [if_neg hz]
      exact le_trans (by simp) (ih (n / b) (Nat.digitChar (n % b) :: acc))

/-- Decimal digit strings are nonempty. -/
theorem toDigits_ne_nil (b n : Nat) : Nat.toDigits b n ≠ [] := by
  unfold Nat.toDigits
  rw [Nat.toDigitsCore]
  by_cases hz : n / b = 0
  · rw [if_pos hz]
    simp
  · rw [if_neg hz]
    intro hc
    have := toDigitsCore_length b n (n / b) (Nat.digitChar (n % b) :: [])
    rw [hc] at this
    simp at this

/-- Integer string representations are nonempty. -/
theorem intToString_ne_nil (i : Int) : (toString i).data ≠ [] := by
  cases i with
  | ofNat n =>
    have hdata : (toString (Int.ofNat n)).data = Nat.toDigits 10 n := rfl
    rw [hdata]
    exact toDigits_ne_nil 10 n
  | negSucc n =>
    have hdata : (toString (Int.negSucc n)).data = ("-" ++ Nat.repr (n + 1)).data := rfl
    rw [hdata, String.data_append]
    simp

/-- The canonical output name starts with a sign or digit character. -/
theorem reqOutputName_head (r : String × Int) :
    ∃ c t, (reqOutputName r ++ ".md").data = c :: t ∧
      c ∈ "-0123456789abcdef*".data := by
  unfold reqOutputName
  rw [String.data_append, String.data_append, String.data_append]
  cases hd : (toString r.2).data with
  | nil => exact absurd hd (intToString_ne_nil r.2)
  | cons c t =>
    refine ⟨c, t ++ "_".data ++ (⟨splitextStem (lastComponent r.1.data)⟩ : String).data
      ++ ".md".data, by simp, ?_⟩
    exact intToString_chars r.2 c (by rw [hd]; exact List.mem_cons_self _ _)

/-- The temporary markdown file does not live in the temp images
subdirectory: its name starts with the identifier, not with `images/`. -/
theorem mdtemp_not_under_temp_images (out_dir : String) (i : Nat) (r : String × Int) :
    isUnder (pathJoin (tempDir out_dir i) IMAGES_DIR_NAME)
      (pathJoin (tempDir out_dir i) (reqOutputName r ++ ".md")) = false := by
  rw [Bool.eq_false_iff]
  intro h
  unfold isUnder at h
  rw [List.isPrefixOf_iff_prefix] at h
  rcases h with ⟨t, ht⟩
  rw [data_pathJoin, data_pathJoin] at ht
  rw [List.append_assoc, List.append_assoc] at ht
  have h1 := List.append_cancel_left ht
  rw [List.cons_append, List.cons.injEq] at h1
  rcases reqOutputName_head r with ⟨c, t', hct, hmem⟩
  have h2 := h1.2
  rw [hct] at h2
  have hdata : (IMAGES_DIR_NAME : String).data = 'i' :: "mages".data := rfl
  rw [hdata] at h2
  rw [List.cons_append, List.cons_append, List.cons.injEq] at h2
  have : c = 'i' := h2.1.symm
  rw [this] at hmem
  exact absurd hmem (by decide)

/-- An identifier-prefixed image path in the shared images directory never
lies under any temp directory: the first component after the output root
is `images`, not `temp_{n}`. -/
theorem temp_not_over_images (out_dir : String) (i : Nat) (z : String) :
    isUnder (tempDir out_dir i)
      (pathJoin (pathJoin out_dir IMAGES_DIR_NAME) z) = false := by
  rw [Bool.eq_false_iff]
  intro h
  unfold isUnder tempDir at h
  rw [List.isPrefixOf_iff_prefix] at h
  rcases h with ⟨t, ht⟩
  rw [data_pathJoin, data_pathJoin, data_pathJoin] at ht
  simp only [List.append_assoc, List.cons_append] at ht
  have h1 := List.append_cancel_left ht
  rw [List.cons.injEq] at h1
  have h2 := h1.2
  have hdata1 : ("temp_" ++ toString i).data = 't' :: ("emp_" ++ toString i).data := by
    rw [String.data_append, String.data_append]
    rfl
  have hdata2 : (IMAGES_DIR_NAME : String).data = 'i' :: "mages".data := rfl
  rw [hdata1, hdata2] at h2
  simp only [List.cons_append] at h2
  rw [List.cons.injEq] at h2
  exact absurd h2.1 (by decide)

/-- Specification of the sequential reference rewriting: for each listed
image with a recognised extension, in order, replace every occurrence of
its old relative reference by the prefixed one. -/
def rewriteContent (pref : String) (names : List String) (content : String) : String :=
  names.foldl (fun c nm =>
    if allowedImageExt nm then
      pyReplace c (IMAGES_DIR_NAME ++ "/" ++ nm)
        (IMAGES_DIR_NAME ++ "/" ++ (pref ++ "_" ++ nm))
    else c) content

/-- One relocation iteration preserves any file other than its source. -/
theorem relocateImage_preserve_src (tid imgd pref fmp : String) (fs : FS)
    (nm p : String) (hne : p ≠ pathJoin tid nm) (h : fs.existsFile p = true) :
    (relocateImage tid imgd pref fmp fs nm).existsFile p = true := by
  unfold relocateImage
  by_cases hext : allowedImageExt nm = true
  · rw [if_pos hext]
    exact (rewriteRefs_existsFile _ _ _ _ _).2
      (FS.existsFile_mvFile_preserve _ _ _ _ hne h)
  · rw [if_neg hext]
    exact h

/-- One relocation iteration applies exactly its reference replacement to
the markdown file's content. -/
theorem relocateImage_read_fmp (tid imgd pref fmp : String) (fs : FS)
    (nm c : String) (hsrc : fmp ≠ pathJoin tid nm)
    (hdst : fmp ≠ pathJoin imgd (pref ++ "_" ++ nm))
    (h : fs.read fmp = some c) :
    (relocateImage tid imgd pref fmp fs nm).read fmp =
      some (if allowedImageExt nm then
        pyReplace c (IMAGES_DIR_NAME ++ "/" ++ nm)
          (IMAGES_DIR_NAME ++ "/" ++ (pref ++ "_" ++ nm)) else c) := by
  unfold relocateImage
  by_cases hext : allowedImageExt nm = true
  · rw [if_pos hext, if_pos hext]
    unfold rewriteRefs
    have hmv : (fs.mvFile (pathJoin tid nm)
        (pathJoin imgd (pref ++ "_" ++ nm))).read fmp = some c := by
      rw [FS.read_mvFile_ne _ _ _ _ hsrc hdst]
      exact h
    rw [hmv]
    exact FS.read_write_self _ _ _
  · rw [if_neg hext, if_neg hext]
    exact h

/-- The image-relocation loop rewrites the markdown content exactly as
`rewriteContent` describes. -/
theorem MAR_read_fmp (tid imgd pref fmp : String) (files : List String) :
    ∀ (fs : FS) (c : String),
    isUnder tid fmp = false →
    (∀ nm, fmp ≠ pathJoin imgd (pref ++ "_" ++ nm)) →
    fs.read fmp = some c →
    (moveAndRenameImages tid imgd pref fmp files fs).read fmp =
      some (rewriteContent pref files c) := by
  induction files with
  | nil => intro fs c _ _ h; exact h
  | cons nm files ih =>
    intro fs c hun hd h
    rw [moveAndRenameImages, List.foldl_cons]
    have hsrc : fmp ≠ pathJoin tid nm := by
      intro hc
      rw [hc, isUnder_pathJoin] at hun
      exact absurd hun (by simp)
    exact ih (relocateImage tid imgd pref fmp fs nm) _ hun hd
      (relocateImage_read_fmp tid imgd pref fmp fs nm c hsrc (hd nm) h)

/-- Every listed image with a recognised extension whose source file is
present ends up in the shared images directory under the prefixed name. -/
theorem MAR_moves (tid imgd pref fmp : String) (files : List String) :
    ∀ (fs : FS) (nm : String), nm ∈ files → allowedImageExt nm = true →
    files.Nodup →
    (∀ a b, pathJoin tid a ≠ pathJoin imgd b) →
    (∀ b, isUnder tid (pathJoin imgd b) = false) →
    fs.existsFile (pathJoin tid nm) = true →
    (moveAndRenameImages tid imgd pref fmp files fs).existsFile
      (pathJoin imgd (pref ++ "_" ++ nm)) = true := by
  induction files with
  | nil => intro fs nm hmem; exact absurd hmem (by simp)
  | cons nm' files ih =>
    intro fs nm hmem hext hnodup hdisj hover hsrc
    rw [moveAndRenameImages, List.foldl_cons]
    rcases List.mem_cons.mp hmem with rfl | hmem'
    · have hdst : (relocateImage tid imgd pref fmp fs nm).existsFile
          (pathJoin imgd (pref ++ "_" ++ nm)) = true := by
        unfold relocateImage
        rw [if_pos hext]
        refine (rewriteRefs_existsFile _ _ _ _ _).2 ?_
        rcases (FS.existsFile_iff _ _).mp hsrc with ⟨d, hdmem⟩
        have hread : fs.read (pathJoin tid nm) =
            some ((fs.find? (fun e => e.1 == pathJoin tid nm)).map
              (fun e => e.2)).iget := by
          unfold FS.read
          cases hf : fs.find? (fun e => e.1 == pathJoin tid nm) with
          | none =>
            exact absurd hsrc (by unfold FS.existsFile; rw [hf]; simp)
          | some e => simp
        unfold FS.mvFile
        rw [hread, FS.existsFile_write]
        simp
      exact MAR_preserve tid imgd pref fmp files _ _ (hover _) hdst
    · have hnm' : nm ≠ nm' := by
        intro hc
        rw [List.nodup_cons] at hnodup
        exact hnodup.1 (hc ▸ hmem')
      refine ih _ nm hmem' hext (List.nodup_cons.mp hnodup).2 hdisj hover ?_
      exact relocateImage_preserve_src tid imgd pref fmp fs nm' _
        (fun hc => hnm' (pathJoin_inj tid _ _ hc)) hsrc

/-- Cancelling a common prefix of string concatenations. -/
theorem string_append_left_cancel (a b c : String) (h : a ++ b = a ++ c) :
    b = c := by
  have hd := congrArg String.data h
  rw [String.data_append, String.data_append] at hd
  have h1 := List.append_cancel_left hd
  cases b
  cases c
  exact congrArg String.mk h1

/-- Every image written by the converter's image fold exists afterwards. -/
theorem existsFile_foldl_write_self (lid : String) (imgs : List (String × String)) :
    ∀ (fs : FS) (nd : String × String), nd ∈ imgs →
    ((imgs.foldl (fun acc nd => FS.write acc (pathJoin lid nd.1) nd.2) fs)).existsFile
      (pathJoin lid nd.1) = true := by
  induction imgs with
  | nil => intro fs nd hmem; exact absurd hmem (by simp)
  | cons nd' imgs ih =>
    intro fs nd hmem
    rw [List.foldl_cons]
    rcases List.mem_cons.mp hmem with rfl | hmem'
    · refine existsFile_foldl_write_preserve _ _ _ _ ?_
      rw [FS.existsFile_write]
      simp
    · exact ih _ nd hmem'

/-- Children of the temp images directory lie under the temp directory. -/
theorem tid_under_temp (out_dir : String) (i : Nat) (x : String) :
    isUnder (tempDir out_dir i)
      (pathJoin (pathJoin (tempDir out_dir i) IMAGES_DIR_NAME) x) = true :=
  isUnder_of_isUnder_pathJoin (tempDir out_dir i) IMAGES_DIR_NAME _
    (isUnder_pathJoin (pathJoin (tempDir out_dir i) IMAGES_DIR_NAME) x)

/-- The batch loop preserves any file that lies under no temp directory. -/
theorem runBatch_preserve_nontemp (eng : Engine) (out_dir : String)
    (pm : Option Nat) (force : Bool) :
    ∀ (reqs : List (String × Int)) (k : Nat) (fs : FS) (p : String),
    (∀ j, isUnder (tempDir out_dir j) p = false) →
    fs.existsFile p = true →
    ((runBatch eng out_dir pm force k reqs fs).1).existsFile p = true := by
  intro reqs
  induction reqs with
  | nil => intro k fs p _ h; exact h
  | cons r rest ih =>
    intro k fs p hp h
    rw [runBatch_cons]
    refine ih (k + 1) _ p hp ?_
    rcases processOne_shape eng out_dir pm force k r fs with hs | hs | hs | hs <;> rw [hs]
    · exact h
    · exact h
    · exact h
    · exact doConversion_preserve eng out_dir k r.1 r.2 (reqOutputName r)
        (reqFinalPath out_dir r) fs p (hp k) h

/-- Claim C4 (amended): for a request converted in a clean temp directory
whose produced image names are distinct, (a) every produced image whose
name has a recognised extension exists afterwards in the shared images
directory under the identifier-prefixed name `{identifier}_{name}`;
(b) the final markdown file's content is the engine's markdown with, for
each such image in listed order, every occurrence of `images/{name}`
replaced by `images/{identifier}_{name}`; (c) an image with an
unrecognised extension is not relocated (the prefixed path's existence is
whatever it was before) and its temporary copy is deleted with the temp
directory; and (d) any file lying under no temp directory, the relocated
images included, survives the remainder of the batch. -/
theorem C4_image_reference_rewriting (eng : Engine) (out_dir : String) (i : Nat)
    (r : String × Int) (fs : FS) (md : String) (imgs : List (String × String))
    (hana : eng.analyze r.1 = .ok (md, imgs))
    (hclean : ∀ e ∈ fs, isUnder (tempDir out_dir i) e.1 = false)
    (hnodup : (imgs.map Prod.fst).Nodup) :
    (∀ nd ∈ imgs, allowedImageExt nd.1 = true →
      ((doConversion eng out_dir i r.1 r.2 (reqOutputName r)
          (reqFinalPath out_dir r) fs).1).existsFile
        (pathJoin (pathJoin out_dir IMAGES_DIR_NAME)
          (toString r.2 ++ "_" ++ nd.1)) = true)
    ∧ ((doConversion eng out_dir i r.1 r.2 (reqOutputName r)
          (reqFinalPath out_dir r) fs).1).read (reqFinalPath out_dir r) =
        some (rewriteContent (toString r.2) ((imgs.map Prod.fst).reverse) md)
    ∧ (∀ nd ∈ imgs, allowedImageExt nd.1 = false →
        ((doConversion eng out_dir i r.1 r.2 (reqOutputName r)
            (reqFinalPath out_dir r) fs).1).existsFile
          (pathJoin (pathJoin out_dir IMAGES_DIR_NAME)
            (toString r.2 ++ "_" ++ nd.1)) =
          fs.existsFile (pathJoin (pathJoin out_dir IMAGES_DIR_NAME)
            (toString r.2 ++ "_" ++ nd.1))
        ∧ ((doConversion eng out_dir i r.1 r.2 (reqOutputName r)
            (reqFinalPath out_dir r) fs).1).existsFile
          (pathJoin (pathJoin (tempDir out_dir i) IMAGES_DIR_NAME) nd.1) = false)
    ∧ (∀ (pm : Option Nat) (force : Bool) (reqs : List (String × Int)) (k : Nat)
        (p : String), (∀ j, isUnder (tempDir out_dir j) p = false) →
        ((doConversion eng out_dir i r.1 r.2 (reqOutputName r)
          (reqFinalPath out_dir r) fs).1).existsFile p = true →
        ((runBatch eng out_dir pm force k reqs
          (doConversion eng out_dir i r.1 r.2 (reqOutputName r)
            (reqFinalPath out_dir r) fs).1).1).existsFile p = true) := by
  have hcleantid : ∀ e ∈ fs,
      isUnder (pathJoin (tempDir out_dir i) IMAGES_DIR_NAME) e.1 = false := by
    intro e he
    rw [Bool.eq_false_iff]
    intro hc
    exact absurd ((hclean e he).symm.trans (isUnder_of_isUnder_pathJoin _ _ _ hc))
      (by simp)
  have hfresh : ∀ nd ∈ imgs, ∀ d,
      (pathJoin (pathJoin (tempDir out_dir i) IMAGES_DIR_NAME) nd.1, d) ∉ fs := by
    intro nd _ d hc
    have := hclean _ hc
    rw [tid_under_temp] at this
    exact absurd this (by simp)
  have hfmp_tid : isUnder (pathJoin (tempDir out_dir i) IMAGES_DIR_NAME)
      (reqFinalPath out_dir r) = false := by
    rw [Bool.eq_false_iff]
    intro hc
    exact absurd ((reqFinalPath_not_under_temp out_dir i r).symm.trans
      (isUnder_of_isUnder_pathJoin _ _ _ hc)) (by simp)
  have hmd_tid := mdtemp_not_under_temp_images out_dir i r
  -- notation shortcuts established by rewriting with the converter spec
  unfold doConversion
  rw [convert_single_spec eng r.1 (tempDir out_dir i) (reqOutputName r) fs md imgs hana]
  simp only []
  set fsW := imgs.foldl (fun acc nd =>
    FS.write acc (pathJoin (pathJoin (tempDir out_dir i) IMAGES_DIR_NAME) nd.1) nd.2) fs
    with hfsW
  set mdpath := pathJoin (tempDir out_dir i) (reqOutputName r ++ ".md") with hmdpath
  set fs1 := FS.write fsW mdpath md with hfs1
  set fs2 := fs1.mvFile mdpath (reqFinalPath out_dir r) with hfs2
  have hmdread : fs1.read mdpath = some md := FS.read_write_self _ _ _
  have hfs2eq : fs2 = (fs1.removeFile mdpath).write (reqFinalPath out_dir r) md := by
    rw [hfs2]
    unfold FS.mvFile
    rw [hmdread]
  have hlistdir : fs2.listdir (pathJoin (tempDir out_dir i) IMAGES_DIR_NAME) =
      (imgs.map Prod.fst).reverse := by
    rw [hfs2eq]
    rw [listdir_write_not_under _ _ _ _ hfmp_tid]
    rw [listdir_removeFile_not_under _ _ _ hmd_tid]
    rw [hfs1]
    rw [listdir_write_not_under _ _ _ _ hmd_tid]
    rw [hfsW]
    rw [listdir_foldl_writes _ _ _ hnodup hfresh]
    rw [listdir_nil_of_clean _ _ hcleantid]
    simp
  have hdisj : ∀ a b, pathJoin (pathJoin (tempDir out_dir i) IMAGES_DIR_NAME) a ≠
      pathJoin (pathJoin out_dir IMAGES_DIR_NAME) b := by
    intro a b hc
    have h1 := tid_under_temp out_dir i a
    rw [hc, temp_not_over_images] at h1
    exact absurd h1 (by simp)
  have hover : ∀ b, isUnder (pathJoin (tempDir out_dir i) IMAGES_DIR_NAME)
      (pathJoin (pathJoin out_dir IMAGES_DIR_NAME) b) = false := by
    intro b
    rw [Bool.eq_false_iff]
    intro hc
    have := isUnder_of_isUnder_pathJoin _ _ _ hc
    rw [temp_not_over_images] at this
    exact absurd this (by simp)
  refine ⟨?_, ?_, ?_, ?_⟩
  · -- (a) relocated images exist under the prefixed name
    intro nd hnd hext
    rw [hlistdir]
    have hsrc2 : fs2.existsFile
        (pathJoin (pathJoin (tempDir out_dir i) IMAGES_DIR_NAME) nd.1) = true := by
      rw [hfs2eq, FS.existsFile_write]
      have hne_md : pathJoin (pathJoin (tempDir out_dir i) IMAGES_DIR_NAME) nd.1 ≠
          mdpath := by
        intro hc
        have h7 := isUnder_pathJoin (pathJoin (tempDir out_dir i) IMAGES_DIR_NAME) nd.1
        rw [hc] at h7
        exact absurd (hmd_tid.symm.trans h7) (by simp)
      rw [FS.existsFile_removeFile_ne _ _ _ hne_md, hfs1, FS.existsFile_write]
      rw [existsFile_foldl_write_self _ _ _ _ hnd]
      simp
    have hmove := MAR_moves (pathJoin (tempDir out_dir i) IMAGES_DIR_NAME)
      (pathJoin out_dir IMAGES_DIR_NAME) (toString r.2) (reqFinalPath out_dir r)
      ((imgs.map Prod.fst).reverse) fs2 nd.1
      (List.mem_reverse.mpr (List.mem_map_of_mem Prod.fst hnd)) hext
      (List.nodup_reverse.mpr hnodup) hdisj hover hsrc2
    rw [FS.existsFile_rmtree_preserve _ _ _ (temp_not_over_images out_dir i _)]
    exact hmove
  · -- (b) final markdown content
    rw [hlistdir]
    rw [FS.read_rmtree_preserve _ _ _ (reqFinalPath_not_under_temp out_dir i r)]
    refine MAR_read_fmp _ _ _ _ _ fs2 md hfmp_tid ?_ ?_
    · intro nm
      exact reqFinalPath_ne_deep out_dir IMAGES_DIR_NAME (toString r.2 ++ "_" ++ nm) r
    · rw [hfs2eq]
      exact FS.read_write_self _ _ _
  · -- (c) images with unrecognised extensions are dropped
    intro nd hnd hext
    constructor
    · by_cases hex : fs.existsFile (pathJoin (pathJoin out_dir IMAGES_DIR_NAME)
          (toString r.2 ++ "_" ++ nd.1)) = true
      · rw [hex]
        rw [FS.existsFile_rmtree_preserve _ _ _ (temp_not_over_images out_dir i _)]
        refine MAR_preserve _ _ _ _ _ _ _ (hover _) ?_
        rw [hfs2eq, FS.existsFile_write]
        have hne_md : pathJoin (pathJoin out_dir IMAGES_DIR_NAME)
            (toString r.2 ++ "_" ++ nd.1) ≠ mdpath := by
          rw [hmdpath]
          intro hc
          have := temp_not_over_images out_dir i (toString r.2 ++ "_" ++ nd.1)
          rw [hc, isUnder_pathJoin] at this
          exact absurd this (by simp)
        rw [FS.existsFile_removeFile_ne _ _ _ hne_md, hfs1, FS.existsFile_write]
        rw [existsFile_foldl_write_preserve _ _ _ _ hex]
        simp
      · rw [Bool.eq_false_iff.mpr hex, Bool.eq_false_iff]
        intro hc
        rcases FS.existsFile_rmtree_sub _ _ _ hc with ⟨h3, _⟩
        rcases MAR_adds _ _ _ _ _ _ _ h3 with h2 | h2 | ⟨nm', hext', h2⟩
        · rw [hfs2eq, FS.existsFile_write] at h2
          rcases Bool.or_eq_true_iff.mp h2 with h1 | h1
          · have : pathJoin (pathJoin out_dir IMAGES_DIR_NAME)
                (toString r.2 ++ "_" ++ nd.1) = reqFinalPath out_dir r := by
              simpa using h1
            exact reqFinalPath_ne_deep out_dir IMAGES_DIR_NAME
              (toString r.2 ++ "_" ++ nd.1) r this.symm
          · have h0 := FS.existsFile_removeFile_sub _ _ _ h1
            rw [hfs1, FS.existsFile_write] at h0
            rcases Bool.or_eq_true_iff.mp h0 with h5 | h5
            · have h6 : pathJoin (pathJoin out_dir IMAGES_DIR_NAME)
                  (toString r.2 ++ "_" ++ nd.1) = mdpath := by simpa using h5
              rw [hmdpath] at h6
              have := temp_not_over_images out_dir i (toString r.2 ++ "_" ++ nd.1)
              rw [h6, isUnder_pathJoin] at this
              exact absurd this (by simp)
            · rcases existsFile_foldl_write_adds _ _ _ _ h5 with h6 | ⟨nd', _, h6⟩
              · exact hex h6
              · exact hdisj nd'.1 (toString r.2 ++ "_" ++ nd.1) h6.symm
        · exact reqFinalPath_ne_deep out_dir IMAGES_DIR_NAME
            (toString r.2 ++ "_" ++ nd.1) r h2.symm
        · have h4 := pathJoin_inj _ _ _ h2
          have h5 := string_append_left_cancel (toString r.2 ++ "_") nd.1 nm' (by
            rw [String.append_assoc, String.append_assoc] at h4 ⊢
            exact h4)
          rw [← h5] at hext'
          rw [hext'] at hext
          exact absurd hext (by simp)
    · rw [FS.existsFile_rmtree_of_isUnder _ _ _ (tid_under_temp out_dir i nd.1)]
  · -- (d) persistence through the rest of the batch
    intro pm force reqs k p hp h
    exact runBatch_preserve_nontemp eng out_dir pm force reqs k _ p hp h

/-- An engine producing one image with an unrecognised extension,
referenced from the markdown. -/
def engSvg : Engine :=
  ⟨fun _ => 5, fun _ => .ok ("see images/fig.svg", [("fig.svg", "SVGDATA")])⟩

/-- Counterexample for C4 as stated: a successfully converted request
whose produced image `fig.svg` falls outside the recognised extension
list.  The final markdown still references the un-prefixed
`images/fig.svg`, and neither the prefixed nor the un-prefixed file
exists in the shared images directory — the reference is not rewritten
and the referenced file does not exist on disk. -/
theorem C4_counterexample :
    convert_multiple_pdfs_to_md engSvg ["a.pdf"] [1] "out" none false [] =
      .ok ([("out/1_a.md", "see images/fig.svg")], [.success "out/1_a.md"])
    ∧ FS.existsFile [("out/1_a.md", "see images/fig.svg")] "out/images/1_fig.svg" = false
    ∧ FS.existsFile [("out/1_a.md", "see images/fig.svg")] "out/images/fig.svg" = false :=
  ⟨rfl, rfl, rfl⟩

/-- Witness for C4 at a concrete conversion with one png image. -/
theorem C4_witness :
    (∀ nd ∈ [("x.png", "DATA")], allowedImageExt nd.1 = true →
      ((doConversion engSmall "out" 0 "docs/a.pdf" 5 (reqOutputName ("docs/a.pdf", 5))
          (reqFinalPath "out" ("docs/a.pdf", 5)) []).1).existsFile
        (pathJoin (pathJoin "out" IMAGES_DIR_NAME)
          (toString (5 : Int) ++ "_" ++ nd.1)) = true)
    ∧ ((doConversion engSmall "out" 0 "docs/a.pdf" 5 (reqOutputName ("docs/a.pdf", 5))
          (reqFinalPath "out" ("docs/a.pdf", 5)) []).1).read
        (reqFinalPath "out" ("docs/a.pdf", 5)) =
        some (rewriteContent (toString (5 : Int))
          (([("x.png", "DATA")].map Prod.fst).reverse) "hello images/x.png")
    ∧ (∀ nd ∈ [("x.png", "DATA")], allowedImageExt nd.1 = false →
        ((doConversion engSmall "out" 0 "docs/a.pdf" 5 (reqOutputName ("docs/a.pdf", 5))
            (reqFinalPath "out" ("docs/a.pdf", 5)) []).1).existsFile
          (pathJoin (pathJoin "out" IMAGES_DIR_NAME)
            (toString (5 : Int) ++ "_" ++ nd.1)) =
          FS.existsFile []
            (pathJoin (pathJoin "out" IMAGES_DIR_NAME)
              (toString (5 : Int) ++ "_" ++ nd.1))
        ∧ ((doConversion engSmall "out" 0 "docs/a.pdf" 5 (reqOutputName ("docs/a.pdf", 5))
            (reqFinalPath "out" ("docs/a.pdf", 5)) []).1).existsFile
          (pathJoin (pathJoin (tempDir "out" 0) IMAGES_DIR_NAME) nd.1) = false)
    ∧ (∀ (pm : Option Nat) (force : Bool) (reqs : List (String × Int)) (k : Nat)
        (p : String), (∀ j, isUnder (tempDir "out" j) p = false) →
        ((doConversion engSmall "out" 0 "docs/a.pdf" 5 (reqOutputName ("docs/a.pdf", 5))
          (reqFinalPath "out" ("docs/a.pdf", 5)) []).1).existsFile p = true →
        ((runBatch engSmall "out" pm force k reqs
          (doConversion engSmall "out" 0 "docs/a.pdf" 5 (reqOutputName ("docs/a.pdf", 5))
            (reqFinalPath "out" ("docs/a.pdf", 5)) []).1).1).existsFile p = true) :=
  C4_image_reference_rewriting engSmall "out" 0 ("docs/a.pdf", 5) []
    "hello images/x.png" [("x.png", "DATA")] rfl
    (fun e he => absurd he (List.not_mem_nil e)) (by simp)

end ZoteroKbase

